import Mathlib

/-!
Verification development for the Metal shader backend and pipeline cache of
the Suyu-mirror repository.

The definitions below are shallow embeddings of the C++ sources:
  * `src/shader_recompiler/backend/msl/var_alloc.{h,cpp}`   (variable allocator)
  * `src/shader_recompiler/backend/msl/emit_msl.cpp`        (phi precoloring, emission)
  * `src/shader_recompiler/backend/msl/msl_emit_context.cpp` (input declarations)
  * `src/video_core/renderer_metal/mtl_pipeline_cache.cpp`  (pipeline cache)
  * `src/video_core/renderer_metal/mtl_rasterizer.cpp`      (draw dispatch)

Machine integers are modelled as `Nat`; the bit-packing of variable
identifiers is an optimization, not a semantic requirement (the identifier is
semantically the triple {validity, type, index}).
-/

namespace Shader.Backend.MSL

/-- `MslVarType` from var_alloc.h: the semantic type tags of host variables. -/
inductive MslVarType : Type
  | U1 | F16x2 | U32 | F32 | U64 | F64
  | U32x2 | F32x2 | U32x3 | F32x3 | U32x4 | F32x4
  | PrecF32 | PrecF64 | Void
deriving DecidableEq, Repr

/-- `Id` from var_alloc.h: a tagged variable identifier
{validity flag, type tag, slot index}.  The C++ packs these three fields into
one `u32`; two identifiers are equal iff all fields are equal. -/
structure Id where
  is_valid : Bool := false
  type : MslVarType := .U1
  index : Nat := 0
deriving DecidableEq, Repr

/-- `VarAlloc::UseTracker` from var_alloc.h: per-type in-use flags, a
high-water mark of slots ever allocated, and the anonymous-temporary flag. -/
structure UseTracker where
  uses_temp : Bool := false
  num_used : Nat := 0
  var_use : List Bool := []
deriving DecidableEq, Repr

/-- `VarAlloc` from var_alloc.h: one `UseTracker` per semantic type. -/
structure VarAlloc where
  var_bool : UseTracker := {}
  var_f16x2 : UseTracker := {}
  var_u32 : UseTracker := {}
  var_u32x2 : UseTracker := {}
  var_u32x3 : UseTracker := {}
  var_u32x4 : UseTracker := {}
  var_f32 : UseTracker := {}
  var_f32x2 : UseTracker := {}
  var_f32x3 : UseTracker := {}
  var_f32x4 : UseTracker := {}
  var_u64 : UseTracker := {}
  var_f64 : UseTracker := {}
  var_precf32 : UseTracker := {}
  var_precf64 : UseTracker := {}
deriving DecidableEq, Repr

/-- `TypePrefix` from var_alloc.cpp (the `Void` case returns `""`; an
unrecognized type throws, which cannot happen for this closed enumeration). -/
def typePref : MslVarType → String
  | .U1 => "b_"
  | .F16x2 => "f16x2_"
  | .U32 => "u_"
  | .F32 => "f_"
  | .U64 => "u64_"
  | .F64 => "d_"
  | .U32x2 => "u2_"
  | .F32x2 => "f2_"
  | .U32x3 => "u3_"
  | .F32x3 => "f3_"
  | .U32x4 => "u4_"
  | .F32x4 => "f4_"
  | .PrecF32 => "pf_"
  | .PrecF64 => "pd_"
  | .Void => ""

/-- `VarAlloc::Representation(u32 index, MslVarType type)` from var_alloc.cpp. -/
def VarAlloc.representation (index : Nat) (type : MslVarType) : String :=
  typePref type ++ toString index

/-- `VarAlloc::Representation(Id)` from var_alloc.cpp. -/
def VarAlloc.representationId (id : Id) : String :=
  VarAlloc.representation id.index id.type

/-- `VarAlloc::GetUseTracker` from var_alloc.cpp (read side).  The `Void`
case throws `NotImplementedException` in the C++, modelled as `none`. -/
def VarAlloc.tracker? (va : VarAlloc) : MslVarType → Option UseTracker
  | .U1 => some va.var_bool
  | .F16x2 => some va.var_f16x2
  | .U32 => some va.var_u32
  | .F32 => some va.var_f32
  | .U64 => some va.var_u64
  | .F64 => some va.var_f64
  | .U32x2 => some va.var_u32x2
  | .F32x2 => some va.var_f32x2
  | .U32x3 => some va.var_u32x3
  | .F32x3 => some va.var_f32x3
  | .U32x4 => some va.var_u32x4
  | .F32x4 => some va.var_f32x4
  | .PrecF32 => some va.var_precf32
  | .PrecF64 => some va.var_precf64
  | .Void => none

/-- Write-back of the tracker returned by `GetUseTracker` (the C++ returns a
mutable reference; updates through that reference are modelled by this
functional update).  `Void` has no tracker and leaves the state unchanged. -/
def VarAlloc.setTracker (va : VarAlloc) (ty : MslVarType) (t : UseTracker) : VarAlloc :=
  match ty with
  | .U1 => { va with var_bool := t }
  | .F16x2 => { va with var_f16x2 := t }
  | .U32 => { va with var_u32 := t }
  | .F32 => { va with var_f32 := t }
  | .U64 => { va with var_u64 := t }
  | .F64 => { va with var_f64 := t }
  | .U32x2 => { va with var_u32x2 := t }
  | .F32x2 => { va with var_f32x2 := t }
  | .U32x3 => { va with var_u32x3 := t }
  | .F32x3 => { va with var_f32x3 := t }
  | .U32x4 => { va with var_u32x4 := t }
  | .F32x4 => { va with var_f32x4 := t }
  | .PrecF32 => { va with var_precf32 := t }
  | .PrecF64 => { va with var_precf64 := t }
  | .Void => va

/-- The linear scan of `VarAlloc::Alloc` over `use_tracker.var_use`:
index of the first `false` flag, if any (the C++ loop
`for var in [0, num_vars): if var_use[var] continue else take var`). -/
def firstFree : List Bool → Option Nat
  | [] => none
  | b :: rest => if b then (firstFree rest).map (· + 1) else some 0

/-- `VarAlloc::Alloc` from var_alloc.cpp: reuse the first free slot of the
type's tracker, else grow the pool; returns the identifier and the updated
allocator.  `none` only for `Void` (the C++ throws there). -/
def VarAlloc.alloc (va : VarAlloc) (ty : MslVarType) : Option (Id × VarAlloc) :=
  match va.tracker? ty with
  | none => none
  | some t =>
    match firstFree t.var_use with
    | some var =>
      let t' : UseTracker :=
        { t with num_used := max t.num_used (var + 1), var_use := t.var_use.set var true }
      some (⟨true, ty, var⟩, va.setTracker ty t')
    | none =>
      let t' : UseTracker :=
        { t with var_use := t.var_use ++ [true], num_used := t.num_used + 1 }
      some (⟨true, ty, t.num_used⟩, va.setTracker ty t')

/-- `VarAlloc::Free` from var_alloc.cpp: clears the in-use flag of the slot.
Freeing an invalid identifier throws `LogicError`, modelled as `none`. -/
def VarAlloc.free (va : VarAlloc) (id : Id) : Option VarAlloc :=
  if id.is_valid = false then none
  else
    match va.tracker? id.type with
    | none => none
    | some t => some (va.setTracker id.type { t with var_use := t.var_use.set id.index false })

/-! ## Immediate formatting (var_alloc.cpp, `FormatFloat` / `MakeImm`) -/

/-- The subset of `IR::Type` handled by `MakeImm`. -/
inductive IRType : Type
  | U1 | U32 | F32 | U64 | F64 | Void
deriving DecidableEq, Repr

/-- `FormatFloat` from var_alloc.cpp, verbatim on the already-rendered decimal
text of the float (`value` is the result of `fmt::format("{}", f)`):
NaN/Inf special cases only for `F32`, a `float(...)`/`double(...)` cast for
scientific notation, and dot/suffix normalization otherwise. -/
def formatFloat (value : String) (type : IRType) : String :=
  if type = .F32 ∧ value = "nan" then "utof(0x7fc00000)"
  else if type = .F32 ∧ value = "inf" then "utof(0x7f800000)"
  else if type = .F32 ∧ value = "-inf" then "utof(0xff800000)"
  else if value.data.contains 'e' then
    -- scientific notation
    (if type = .F32 then "float" else "double") ++ "(" ++ value ++ ")"
  else
    let needs_dot := ¬ value.data.contains '.'
    let needs_suffix := ¬ (value.data.getLast? = some 'f')
    let suffix := if type = .F32 then "f" else "lf"
    value ++ (if needs_dot then "." else "") ++ (if needs_suffix then suffix else "")

/-- An `IR::Value` immediate.  Float immediates carry the decimal text that
`fmt::format("{}", value.F32())` (resp. `.F64()`) renders for them; integer
immediates carry their numeric value. -/
inductive ImmValue : Type
  | u1 (b : Bool)
  | u32 (v : Nat)
  | f32 (rendered : String)
  | u64 (v : Nat)
  | f64 (rendered : String)
  | void
deriving DecidableEq, Repr

/-- `MakeImm` from var_alloc.cpp (an unhandled type throws; every constructor
here is handled). -/
def makeImm : ImmValue → String
  | .u1 b => if b then "true" else "false"
  | .u32 v => toString v ++ "u"
  | .f32 s => formatFloat s .F32
  | .u64 v => toString v ++ "ul"
  | .f64 s => formatFloat s .F64
  | .void => ""

/-! ## The allocator state machine

`VarAlloc::Define` / `VarAlloc::Consume` operate on IR instructions that
carry a use count and a definition slot.  Instructions are named by natural
numbers; `InstInfo` is the per-instruction state the allocator reads and
writes (`inst.HasUses()`, `inst.DestructiveRemoveUsage()',
`inst.SetDefinition<Id>()`, `inst.Definition<Id>()`). -/

/-- An `IR::Value`: an immediate or a reference to an instruction's result. -/
inductive EValue : Type
  | imm (v : ImmValue)
  | ref (inst : Nat)
deriving DecidableEq, Repr

/-- Per-instruction state: remaining uses and the assigned definition. -/
structure InstInfo where
  uses : Nat
  defn : Id
deriving DecidableEq, Repr

/-- Allocator plus the instruction store it manipulates. -/
structure AllocState where
  va : VarAlloc := {}
  insts : Nat → Option InstInfo := fun _ => none

/-- Pointwise update of the instruction store. -/
def updateInsts (f : Nat → Option InstInfo) (i : Nat) (v : Option InstInfo) :
    Nat → Option InstInfo :=
  fun j => if j = i then v else f j

/-- `VarAlloc::Define(IR::Inst&, MslVarType)` from var_alloc.cpp.  `uses` is
the instruction's use count at definition time (`inst.HasUses()` iff
`0 < uses`).  A fresh instruction is defined at most once (IR invariant);
redefinition, or a `Void` allocation, yields `none`. -/
def AllocState.defineInst (st : AllocState) (i : Nat) (uses : Nat) (ty : MslVarType) :
    Option (String × AllocState) :=
  match st.insts i with
  | some _ => none
  | none =>
    if 0 < uses then
      match st.va.alloc ty with
      | none => none
      | some (id, va') =>
        some (VarAlloc.representationId id,
          { va := va', insts := updateInsts st.insts i (some ⟨uses, id⟩) })
    else
      match st.va.tracker? ty with
      | none => none
      | some t =>
        let id : Id := { is_valid := false, type := ty, index := 0 }
        some ("t" ++ VarAlloc.representationId id,
          { va := st.va.setTracker ty { t with uses_temp := true },
            insts := updateInsts st.insts i (some ⟨0, id⟩) })

/-- `VarAlloc::ConsumeInst` from var_alloc.cpp: remove one usage; when the
count reaches zero, free the definition's slot; return the textual
representation.  Consuming an instruction with no remaining uses is an
invalid trace (`none`). -/
def AllocState.consumeInst (st : AllocState) (i : Nat) : Option (String × AllocState) :=
  match st.insts i with
  | none => none
  | some info =>
    match info.uses with
    | 0 => none
    | u + 1 =>
      let insts' := updateInsts st.insts i (some ⟨u, info.defn⟩)
      if u = 0 then
        match st.va.free info.defn with
        | none => none
        | some va' => some (VarAlloc.representationId info.defn, { va := va', insts := insts' })
      else
        some (VarAlloc.representationId info.defn, { va := st.va, insts := insts' })

/-- `VarAlloc::Consume(const IR::Value&)` from var_alloc.cpp. -/
def AllocState.consume (st : AllocState) : EValue → Option (String × AllocState)
  | .imm v => some (makeImm v, st)
  | .ref i => st.consumeInst i

/-- One `Define` or `Consume` call in an emission trace. -/
inductive AllocEvent : Type
  | define (i : Nat) (uses : Nat) (ty : MslVarType)
  | consume (i : Nat)
deriving DecidableEq, Repr

/-- State transition of one allocator call (dropping the returned text). -/
def AllocState.step (st : AllocState) : AllocEvent → Option AllocState
  | .define i u ty => (st.defineInst i u ty).map (·.2)
  | .consume i => (st.consumeInst i).map (·.2)

/-- Run a sequence of `Define`/`Consume` calls from the freshly constructed
allocator (`VarAlloc` is default-constructed once per emit context). -/
def runAlloc (evs : List AllocEvent) : Option AllocState :=
  evs.foldlM AllocState.step ({} : AllocState)

/-! ## Allocator invariants (var_alloc.cpp) -/

/-- Every live instruction (one with remaining uses) has a valid definition
whose slot is flagged in-use in the tracker of its type. -/
def Sound (va : VarAlloc) (insts : Nat → Option InstInfo) : Prop :=
  ∀ i info, insts i = some info → 0 < info.uses →
    info.defn.is_valid = true ∧
    ∃ t, va.tracker? info.defn.type = some t ∧ t.var_use[info.defn.index]? = some true

/-- No two distinct live instructions share a (type, index) identifier. -/
def Inj (insts : Nat → Option InstInfo) : Prop :=
  ∀ i j infoi infoj, insts i = some infoi → insts j = some infoj →
    0 < infoi.uses → 0 < infoj.uses →
    infoi.defn.type = infoj.defn.type → infoi.defn.index = infoj.defn.index → i = j

/-- Bookkeeping: each tracker's high-water mark equals its pool length. -/
def TrackersWF (va : VarAlloc) : Prop :=
  ∀ ty t, va.tracker? ty = some t → t.num_used = t.var_use.length

def Invariant (va : VarAlloc) (insts : Nat → Option InstInfo) : Prop :=
  Sound va insts ∧ Inj insts ∧ TrackersWF va

theorem updateInsts_self (f : Nat → Option InstInfo) (i : Nat) (v : Option InstInfo) :
    updateInsts f i v i = v := by
  simp [updateInsts]

theorem updateInsts_other (f : Nat → Option InstInfo) (i : Nat) (v : Option InstInfo)
    (j : Nat) (h : j ≠ i) : updateInsts f i v j = f j := by
  simp [updateInsts, h]

theorem tracker_set_self (va : VarAlloc) (ty : MslVarType) (t : UseTracker)
    (h : ty ≠ .Void) : (va.setTracker ty t).tracker? ty = some t := by
  cases ty <;> first | rfl | exact absurd rfl h

theorem tracker_set_other (va : VarAlloc) (ty : MslVarType) (t : UseTracker)
    (ty' : MslVarType) (h : ty' ≠ ty) :
    (va.setTracker ty t).tracker? ty' = va.tracker? ty' := by
  cases ty <;> cases ty' <;> first | exact absurd rfl h | rfl

theorem tracker_ne_void (va : VarAlloc) (ty : MslVarType) (t : UseTracker)
    (h : va.tracker? ty = some t) : ty ≠ .Void := by
  intro he
  subst he
  exact Option.noConfusion h

theorem lt_of_getElem?_eq_some {α : Type} (l : List α) (i : Nat) (a : α)
    (h : l[i]? = some a) : i < l.length := by
  by_contra hc
  rw [List.getElem?_eq_none (by omega)] at h
  exact Option.noConfusion h

theorem firstFree_some (l : List Bool) (i : Nat) (h : firstFree l = some i) :
    l[i]? = some false ∧ ∀ j, j < i → l[j]? = some true := by
  induction l generalizing i with
  | nil => exact absurd h (by simp [firstFree])
  | cons b rest ih =>
    cases b with
    | false =>
      have hi : i = 0 := by simpa [firstFree] using h.symm
      subst hi
      exact ⟨by simp, fun j hj => absurd hj (by omega)⟩
    | true =>
      rw [show firstFree (true :: rest) = (firstFree rest).map (· + 1) from rfl] at h
      cases hf : firstFree rest with
      | none => rw [hf] at h; exact absurd h (by simp)
      | some k =>
        rw [hf] at h
        have hik : i = k + 1 := by simpa using h.symm
        subst hik
        obtain ⟨h1, h2⟩ := ih k hf
        refine ⟨by simpa using h1, ?_⟩
        intro j hj
        cases j with
        | zero => simp
        | succ j' => simpa using h2 j' (by omega)

theorem firstFree_none (l : List Bool) (h : firstFree l = none) :
    ∀ j, j < l.length → l[j]? = some true := by
  induction l with
  | nil => intro j hj; simp at hj
  | cons b rest ih =>
    cases b with
    | false => simp [firstFree] at h
    | true =>
      rw [show firstFree (true :: rest) = (firstFree rest).map (· + 1) from rfl] at h
      have hf : firstFree rest = none := by
        cases hf : firstFree rest with
        | none => rfl
        | some k => rw [hf] at h; exact absurd h (by simp)
      intro j hj
      cases j with
      | zero => simp
      | succ j' =>
        have : j' < rest.length := by simp at hj; omega
        simpa using ih hf j' this

theorem firstFree_le (l : List Bool) (i : Nat) (h : l[i]? = some false) :
    ∃ k, firstFree l = some k ∧ k ≤ i := by
  induction l generalizing i with
  | nil => exact absurd h (by simp)
  | cons b rest ih =>
    cases b with
    | false => exact ⟨0, rfl, Nat.zero_le _⟩
    | true =>
      cases i with
      | zero => simp at h
      | succ i' =>
        have h' : rest[i']? = some false := by simpa using h
        obtain ⟨k, hk, hki⟩ := ih i' h'
        refine ⟨k + 1, ?_, by omega⟩
        rw [show firstFree (true :: rest) = (firstFree rest).map (· + 1) from rfl, hk]
        rfl

/-- Characterization of a successful `VarAlloc::Alloc`: the returned
identifier is valid, of the requested type, its slot was not in use before
and is in use after, no other slot of any tracker changes, every smaller
index was already in use (first-fit picks the lowest free slot), and the
slot is either a previously freed one or the pool grows by exactly one. -/
theorem alloc_spec (va : VarAlloc) (ty : MslVarType) (id : Id) (va' : VarAlloc)
    (t : UseTracker) (htr : va.tracker? ty = some t)
    (hwf : t.num_used = t.var_use.length)
    (h : va.alloc ty = some (id, va')) :
    id.is_valid = true ∧ id.type = ty ∧
    ∃ t', va'.tracker? ty = some t' ∧
      t.var_use[id.index]? ≠ some true ∧
      t'.var_use[id.index]? = some true ∧
      t'.num_used = t'.var_use.length ∧
      (∀ j, j ≠ id.index → t'.var_use[j]? = t.var_use[j]?) ∧
      (∀ ty', ty' ≠ ty → va'.tracker? ty' = va.tracker? ty') ∧
      (∀ j, j < id.index → t.var_use[j]? = some true) ∧
      (t.var_use[id.index]? = some false ∨ id.index = t.var_use.length) := by
  have hty : ty ≠ .Void := tracker_ne_void va ty t htr
  unfold VarAlloc.alloc at h
  rw [htr] at h
  cases hff : firstFree t.var_use with
  | some var =>
    simp only [hff, Option.some.injEq, Prod.mk.injEq] at h
    obtain ⟨hid, hva⟩ := h
    subst hid
    subst hva
    obtain ⟨hfalse, hlow⟩ := firstFree_some t.var_use var hff
    have hvar_lt : var < t.var_use.length := lt_of_getElem?_eq_some _ _ _ hfalse
    refine ⟨rfl, rfl, _, tracker_set_self va ty _ hty, ?_, ?_, ?_, ?_, ?_, ?_, ?_⟩
    · show t.var_use[var]? ≠ some true
      rw [hfalse]; simp
    · show (t.var_use.set var true)[var]? = some true
      exact List.getElem?_set_self hvar_lt
    · show max t.num_used (var + 1) = (t.var_use.set var true).length
      simp only [List.length_set]
      omega
    · intro j hj
      show (t.var_use.set var true)[j]? = t.var_use[j]?
      exact List.getElem?_set_ne (by simpa using Ne.symm hj)
    · intro ty' hne
      exact tracker_set_other va ty _ ty' hne
    · intro j hj
      exact hlow j hj
    · left; exact hfalse
  | none =>
    simp only [hff, Option.some.injEq, Prod.mk.injEq] at h
    obtain ⟨hid, hva⟩ := h
    subst hid
    subst hva
    have hall := firstFree_none t.var_use hff
    have hidx : ({ is_valid := true, type := ty, index := t.num_used } : Id).index
        = t.var_use.length := hwf
    refine ⟨rfl, rfl, _, tracker_set_self va ty _ hty, ?_, ?_, ?_, ?_, ?_, ?_, ?_⟩
    · show t.var_use[t.num_used]? ≠ some true
      rw [hwf, List.getElem?_eq_none (le_refl _)]
      simp
    · show (t.var_use ++ [true])[t.num_used]? = some true
      rw [hwf]
      exact List.getElem?_concat_length _ _
    · show t.num_used + 1 = (t.var_use ++ [true]).length
      simp only [List.length_append, List.length_cons, List.length_nil]
      omega
    · intro j hj
      show (t.var_use ++ [true])[j]? = t.var_use[j]?
      have hj' : j ≠ t.var_use.length := by rw [← hwf]; exact hj
      rcases Nat.lt_or_ge j t.var_use.length with hlt | hge
      · exact List.getElem?_append_left hlt
      · rw [List.getElem?_eq_none (l := t.var_use ++ [true]) (by simp; omega),
          List.getElem?_eq_none (by omega)]
    · intro ty' hne
      exact tracker_set_other va ty _ ty' hne
    · intro j hj
      exact hall j (by rw [← hwf]; exact hj)
    · right; exact hidx

/-- Characterization of a successful `VarAlloc::Free`: the slot's flag is
cleared, nothing else changes. -/
theorem free_spec (va : VarAlloc) (id : Id) (va' : VarAlloc) (t : UseTracker)
    (htr : va.tracker? id.type = some t)
    (h : va.free id = some va') :
    ∃ t', va'.tracker? id.type = some t' ∧
      t'.var_use = t.var_use.set id.index false ∧
      t'.num_used = t.num_used ∧
      (∀ ty', ty' ≠ id.type → va'.tracker? ty' = va.tracker? ty') := by
  have hty : id.type ≠ .Void := tracker_ne_void va id.type t htr
  unfold VarAlloc.free at h
  by_cases hv : id.is_valid = false
  · rw [if_pos hv] at h; exact Option.noConfusion h
  · rw [if_neg hv, htr] at h
    simp only [Option.some.injEq] at h
    subst h
    exact ⟨_, tracker_set_self va id.type _ hty, rfl, rfl,
      fun ty' hne => tracker_set_other va id.type _ ty' hne⟩

theorem alloc_tracker (va : VarAlloc) (ty : MslVarType) (id : Id) (va' : VarAlloc)
    (h : va.alloc ty = some (id, va')) : ∃ t, va.tracker? ty = some t := by
  unfold VarAlloc.alloc at h
  cases htr : va.tracker? ty with
  | none => rw [htr] at h; exact Option.noConfusion h
  | some t => exact ⟨t, rfl⟩

theorem init_invariant : Invariant ({} : VarAlloc) (fun _ => none) := by
  refine ⟨?_, ?_, ?_⟩
  · intro i info h _
    exact Option.noConfusion h
  · intro i j infoi infoj hi _ _ _ _ _
    exact Option.noConfusion hi
  · intro ty t h
    cases ty <;> first
      | exact Option.noConfusion h
      | (injection h with h2; rw [← h2]; rfl)

/-- One `Define`/`Consume` call preserves the allocator invariant. -/
theorem step_preserves (st st' : AllocState) (ev : AllocEvent)
    (hinv : Invariant st.va st.insts) (h : st.step ev = some st') :
    Invariant st'.va st'.insts := by
  obtain ⟨hS, hI, hW⟩ := hinv
  cases ev with
  | define i uses ty =>
    simp only [AllocState.step] at h
    cases hd : st.defineInst i uses ty with
    | none => rw [hd] at h; exact Option.noConfusion h
    | some p =>
      rw [hd] at h
      simp only [Option.map_some', Option.some.injEq] at h
      subst h
      unfold AllocState.defineInst at hd
      cases hins : st.insts i with
      | some _ => rw [hins] at hd; exact Option.noConfusion hd
      | none =>
        rw [hins] at hd
        by_cases hu : 0 < uses
        · rw [if_pos hu] at hd
          cases hal : st.va.alloc ty with
          | none => rw [hal] at hd; exact Option.noConfusion hd
          | some q =>
            obtain ⟨id, va'⟩ := q
            rw [hal] at hd
            simp only [Option.some.injEq] at hd
            subst hd
            dsimp only
            obtain ⟨t, htr⟩ := alloc_tracker st.va ty id va' hal
            have hwf := hW ty t htr
            obtain ⟨hvalid, htype, t', htr', hnotin, hin, hnum, hoj, hoty, -, -⟩ :=
              alloc_spec st.va ty id va' t htr hwf hal
            refine ⟨?_, ?_, ?_⟩
            · intro k info hk hku
              by_cases hki : k = i
              · subst hki
                rw [updateInsts_self] at hk
                injection hk with hk2
                rw [← hk2]
                exact ⟨hvalid, t', by rw [htype]; exact htr', hin⟩
              · rw [updateInsts_other _ _ _ _ hki] at hk
                obtain ⟨hv0, t0, htr0, hin0⟩ := hS k info hk hku
                by_cases hty0 : info.defn.type = ty
                · rw [hty0] at htr0
                  have ht0 : t0 = t := by
                    rw [htr] at htr0; exact (Option.some.inj htr0).symm
                  subst ht0
                  refine ⟨hv0, t', by rw [hty0]; exact htr', ?_⟩
                  have hne : info.defn.index ≠ id.index := by
                    intro he
                    rw [he] at hin0
                    exact hnotin hin0
                  rw [hoj _ hne]
                  exact hin0
                · exact ⟨hv0, t0, by rw [hoty _ hty0]; exact htr0, hin0⟩
            · intro k l infok infol hk hl hku hlu hty_eq hidx_eq
              by_cases hki : k = i <;> by_cases hli : l = i
              · rw [hki, hli]
              · exfalso
                subst hki
                rw [updateInsts_self] at hk
                injection hk with hk2
                rw [updateInsts_other _ _ _ _ hli] at hl
                obtain ⟨-, t0, htr0, hin0⟩ := hS l infol hl hlu
                have hlt : infol.defn.type = ty := by
                  rw [← hty_eq, ← hk2, htype]
                have hli2 : infol.defn.index = id.index := by
                  rw [← hidx_eq, ← hk2]
                rw [hlt] at htr0
                have ht0 : t0 = t := by
                  rw [htr] at htr0; exact (Option.some.inj htr0).symm
                subst ht0
                rw [hli2] at hin0
                exact hnotin hin0
              · exfalso
                subst hli
                rw [updateInsts_self] at hl
                injection hl with hl2
                rw [updateInsts_other _ _ _ _ hki] at hk
                obtain ⟨-, t0, htr0, hin0⟩ := hS k infok hk hku
                have hkt : infok.defn.type = ty := by
                  rw [hty_eq, ← hl2, htype]
                have hki2 : infok.defn.index = id.index := by
                  rw [hidx_eq, ← hl2]
                rw [hkt] at htr0
                have ht0 : t0 = t := by
                  rw [htr] at htr0; exact (Option.some.inj htr0).symm
                subst ht0
                rw [hki2] at hin0
                exact hnotin hin0
              · rw [updateInsts_other _ _ _ _ hki] at hk
                rw [updateInsts_other _ _ _ _ hli] at hl
                exact hI k l infok infol hk hl hku hlu hty_eq hidx_eq
            · intro ty0 t0 htr0
              by_cases hty0 : ty0 = ty
              · subst hty0
                rw [htr'] at htr0
                rw [← Option.some.inj htr0]
                exact hnum
              · rw [hoty ty0 hty0] at htr0
                exact hW ty0 t0 htr0
        · rw [if_neg hu] at hd
          cases htr : st.va.tracker? ty with
          | none => rw [htr] at hd; exact Option.noConfusion hd
          | some t =>
            rw [htr] at hd
            simp only [Option.some.injEq] at hd
            subst hd
            dsimp only
            have hty : ty ≠ .Void := tracker_ne_void _ _ _ htr
            refine ⟨?_, ?_, ?_⟩
            · intro k info hk hku
              by_cases hki : k = i
              · subst hki
                rw [updateInsts_self] at hk
                injection hk with hk2
                rw [← hk2] at hku
                exact absurd hku (by simp)
              · rw [updateInsts_other _ _ _ _ hki] at hk
                obtain ⟨hv0, t0, htr0, hin0⟩ := hS k info hk hku
                by_cases hty0 : info.defn.type = ty
                · rw [hty0] at htr0
                  have ht0 : t0 = t := by
                    rw [htr] at htr0; exact (Option.some.inj htr0).symm
                  rw [ht0] at hin0
                  refine ⟨hv0, { t with uses_temp := true },
                    by rw [hty0]; exact tracker_set_self _ _ _ hty, hin0⟩
                · exact ⟨hv0, t0, by rw [tracker_set_other _ _ _ _ hty0]; exact htr0, hin0⟩
            · intro k l infok infol hk hl hku hlu hty_eq hidx_eq
              by_cases hki : k = i
              · exfalso
                subst hki
                rw [updateInsts_self] at hk
                injection hk with hk2
                rw [← hk2] at hku
                exact absurd hku (by simp)
              · by_cases hli : l = i
                · exfalso
                  subst hli
                  rw [updateInsts_self] at hl
                  injection hl with hl2
                  rw [← hl2] at hlu
                  exact absurd hlu (by simp)
                · rw [updateInsts_other _ _ _ _ hki] at hk
                  rw [updateInsts_other _ _ _ _ hli] at hl
                  exact hI k l infok infol hk hl hku hlu hty_eq hidx_eq
            · intro ty0 t0 htr0
              by_cases hty0 : ty0 = ty
              · subst hty0
                rw [tracker_set_self _ _ _ hty] at htr0
                rw [← Option.some.inj htr0]
                exact hW _ t htr
              · rw [tracker_set_other _ _ _ _ hty0] at htr0
                exact hW ty0 t0 htr0
  | consume i =>
    simp only [AllocState.step] at h
    cases hd : st.consumeInst i with
    | none => rw [hd] at h; exact Option.noConfusion h
    | some p =>
      rw [hd] at h
      simp only [Option.map_some', Option.some.injEq] at h
      subst h
      unfold AllocState.consumeInst at hd
      cases hins : st.insts i with
      | none => rw [hins] at hd; exact Option.noConfusion hd
      | some info =>
        rw [hins] at hd
        cases huses : info.uses with
        | zero =>
          simp only [huses] at hd
          exact Option.noConfusion hd
        | succ u =>
          simp only [huses] at hd
          have hlive : 0 < info.uses := by omega
          obtain ⟨hval, t, htr, hin⟩ := hS i info hins hlive
          by_cases hu0 : u = 0
          · subst hu0
            rw [if_pos rfl] at hd
            cases hfr : st.va.free info.defn with
            | none => rw [hfr] at hd; exact Option.noConfusion hd
            | some va' =>
              rw [hfr] at hd
              simp only [Option.some.injEq] at hd
              subst hd
              dsimp only
              obtain ⟨t', htr', hvu', hnum', hoty'⟩ :=
                free_spec st.va info.defn va' t htr hfr
              refine ⟨?_, ?_, ?_⟩
              · intro k infok hk hku
                by_cases hki : k = i
                · subst hki
                  rw [updateInsts_self] at hk
                  injection hk with hk2
                  rw [← hk2] at hku
                  exact absurd hku (by simp)
                · rw [updateInsts_other _ _ _ _ hki] at hk
                  obtain ⟨hv0, t0, htr0, hin0⟩ := hS k infok hk hku
                  by_cases hty0 : infok.defn.type = info.defn.type
                  · rw [hty0] at htr0
                    have ht0 : t0 = t := by
                      rw [htr] at htr0; exact (Option.some.inj htr0).symm
                    subst ht0
                    refine ⟨hv0, t', by rw [hty0]; exact htr', ?_⟩
                    have hne : infok.defn.index ≠ info.defn.index := by
                      intro he
                      exact hki (hI k i infok info hk hins hku hlive hty0 he)
                    rw [hvu', List.getElem?_set_ne (by simpa using Ne.symm hne)]
                    exact hin0
                  · exact ⟨hv0, t0, by rw [hoty' _ hty0]; exact htr0, hin0⟩
              · intro k l infok infol hk hl hku hlu hty_eq hidx_eq
                by_cases hki : k = i
                · exfalso
                  subst hki
                  rw [updateInsts_self] at hk
                  injection hk with hk2
                  rw [← hk2] at hku
                  exact absurd hku (by simp)
                · by_cases hli : l = i
                  · exfalso
                    subst hli
                    rw [updateInsts_self] at hl
                    injection hl with hl2
                    rw [← hl2] at hlu
                    exact absurd hlu (by simp)
                  · rw [updateInsts_other _ _ _ _ hki] at hk
                    rw [updateInsts_other _ _ _ _ hli] at hl
                    exact hI k l infok infol hk hl hku hlu hty_eq hidx_eq
              · intro ty0 t0 htr0
                by_cases hty0 : ty0 = info.defn.type
                · subst hty0
                  rw [htr'] at htr0
                  rw [← Option.some.inj htr0]
                  rw [hnum', hvu']
                  simp only [List.length_set]
                  exact hW _ t htr
                · rw [hoty' ty0 hty0] at htr0
                  exact hW ty0 t0 htr0
          · rw [if_neg hu0] at hd
            simp only [Option.some.injEq] at hd
            subst hd
            dsimp only
            refine ⟨?_, ?_, ?_⟩
            · intro k infok hk hku
              by_cases hki : k = i
              · subst hki
                rw [updateInsts_self] at hk
                injection hk with hk2
                rw [← hk2]
                exact ⟨hval, t, htr, hin⟩
              · rw [updateInsts_other _ _ _ _ hki] at hk
                exact hS k infok hk hku
            · intro k l infok infol hk hl hku hlu hty_eq hidx_eq
              by_cases hki : k = i <;> by_cases hli : l = i
              · rw [hki, hli]
              · subst hki
                rw [updateInsts_self] at hk
                injection hk with hk2
                rw [updateInsts_other _ _ _ _ hli] at hl
                refine hI _ l info infol hins hl hlive hlu ?_ ?_
                · rw [← hty_eq, ← hk2]
                · rw [← hidx_eq, ← hk2]
              · subst hli
                rw [updateInsts_self] at hl
                injection hl with hl2
                rw [updateInsts_other _ _ _ _ hki] at hk
                refine hI k _ infok info hk hins hku hlive ?_ ?_
                · rw [hty_eq, ← hl2]
                · rw [hidx_eq, ← hl2]
              · rw [updateInsts_other _ _ _ _ hki] at hk
                rw [updateInsts_other _ _ _ _ hli] at hl
                exact hI k l infok infol hk hl hku hlu hty_eq hidx_eq
            · exact hW

/-- The invariant holds in every state reachable by a valid trace. -/
theorem runAlloc_invariant (evs : List AllocEvent) (st : AllocState)
    (h : runAlloc evs = some st) : Invariant st.va st.insts := by
  have H : ∀ (l : List AllocEvent) (s0 s : AllocState), Invariant s0.va s0.insts →
      List.foldlM AllocState.step s0 l = some s → Invariant s.va s.insts := by
    intro l
    induction l with
    | nil =>
      intro s0 s h0 hf
      simp only [List.foldlM_nil, Option.pure_def, Option.some.injEq] at hf
      rw [← hf]
      exact h0
    | cons e rest ih =>
      intro s0 s h0 hf
      rw [List.foldlM_cons] at hf
      cases hs : s0.step e with
      | none => rw [hs] at hf; exact Option.noConfusion hf
      | some s1 => exact ih s1 s (step_preserves s0 s1 e h0 (by rw [hs])) (by rw [hs] at hf; exact hf)
  exact H evs {} st init_invariant h

/-- A last consumption (`uses = 1`) goes through the `Free` path of
`ConsumeInst`. -/
theorem consumeInst_last (st : AllocState) (i : Nat) (info : InstInfo)
    (r : String × AllocState) (hi : st.insts i = some info) (hu : info.uses = 1)
    (h : st.consumeInst i = some r) :
    ∃ va', st.va.free info.defn = some va' ∧
      r.2 = { va := va', insts := updateInsts st.insts i (some ⟨0, info.defn⟩) } := by
  unfold AllocState.consumeInst at h
  rw [hi] at h
  cases huses : info.uses with
  | zero => rw [huses] at hu; exact absurd hu (by omega)
  | succ u =>
    have hu0 : u = 0 := by omega
    subst hu0
    simp only [huses, if_true] at h
    cases hfr : st.va.free info.defn with
    | none => rw [hfr] at h; exact Option.noConfusion h
    | some va' =>
      rw [hfr] at h
      simp only [Option.some.injEq] at h
      exact ⟨va', rfl, by rw [← h]⟩

/-- **C1.**  For every sequence of `VarAlloc::Define`/`VarAlloc::Consume`
calls arising from emitting an IR program (any valid event trace), at no
point are two simultaneously-live instructions assigned the same
(type, index) variable identifier; when `Consume`/`ConsumeInst` decrements
an instruction's use count to zero, its slot's in-use flag is cleared (the
slot becomes eligible for reuse) and every subsequent allocation of the
same type picks an index no larger than the freed one; and every
allocation reuses the lowest free slot index — all smaller indices are
in use, and the pool grows only when no slot is free. -/
theorem varAlloc_unique_ids_and_lowest_reuse (evs : List AllocEvent) (st : AllocState)
    (h : runAlloc evs = some st) :
    (∀ i j infoi infoj, st.insts i = some infoi → st.insts j = some infoj →
       0 < infoi.uses → 0 < infoj.uses →
       infoi.defn.type = infoj.defn.type → infoi.defn.index = infoj.defn.index → i = j) ∧
    (∀ i info st', st.insts i = some info → info.uses = 1 →
       st.step (.consume i) = some st' →
       (∃ t', st'.va.tracker? info.defn.type = some t' ∧
          t'.var_use[info.defn.index]? = some false) ∧
       (∀ id2 va2, st'.va.alloc info.defn.type = some (id2, va2) →
          id2.index ≤ info.defn.index)) ∧
    (∀ ty id va', st.va.alloc ty = some (id, va') →
       ∃ t, st.va.tracker? ty = some t ∧
         (∀ j, j < id.index → t.var_use[j]? = some true) ∧
         (t.var_use[id.index]? = some false ∨ id.index = t.var_use.length)) := by
  obtain ⟨hSnd, hInj, hWf⟩ := runAlloc_invariant evs st h
  refine ⟨hInj, ?_, ?_⟩
  · intro i info st' hi hu hstep
    have hinv' := step_preserves st st' (.consume i) ⟨hSnd, hInj, hWf⟩ hstep
    obtain ⟨-, -, hWf'⟩ := hinv'
    simp only [AllocState.step] at hstep
    cases hc : st.consumeInst i with
    | none => rw [hc] at hstep; exact absurd hstep (by simp)
    | some r =>
      rw [hc] at hstep
      simp only [Option.map_some', Option.some.injEq] at hstep
      obtain ⟨va', hfr, hr2⟩ := consumeInst_last st i info r hi hu hc
      have hva : st'.va = va' := by rw [← hstep, hr2]
      obtain ⟨hval, t, htr, hin⟩ := hSnd i info hi (by omega)
      obtain ⟨t', htr', hvu', hnum', hoty'⟩ := free_spec st.va info.defn va' t htr hfr
      have hidx_lt : info.defn.index < t.var_use.length := lt_of_getElem?_eq_some _ _ _ hin
      have hfalse : t'.var_use[info.defn.index]? = some false := by
        rw [hvu']
        exact List.getElem?_set_self hidx_lt
      constructor
      · exact ⟨t', by rw [hva]; exact htr', hfalse⟩
      · intro id2 va2 hal2
        rw [hva] at hal2
        have hwf2 : t'.num_used = t'.var_use.length := by
          have := hWf' info.defn.type t'
          rw [hva] at this
          exact this htr'
        obtain ⟨-, -, t2, -, -, -, -, -, -, hlow2, -⟩ :=
          alloc_spec va' info.defn.type id2 va2 t' htr' hwf2 hal2
        by_contra hgt
        have hlt : info.defn.index < id2.index := by omega
        have := hlow2 info.defn.index hlt
        rw [hfalse] at this
        exact Option.noConfusion this (fun he => Bool.noConfusion he)
  · intro ty id va' hal
    obtain ⟨t, htr⟩ := alloc_tracker st.va ty id va' hal
    have hwf := hWf ty t htr
    obtain ⟨-, -, t', -, -, -, -, -, -, hlow, hor⟩ :=
      alloc_spec st.va ty id va' t htr hwf hal
    exact ⟨t, htr, hlow, hor⟩

/-- The spec's §8 end-to-end trace: a one-use `U32` definition, its last
consumption, then an unrelated `U32` definition that must reuse slot 0. -/
def demoEvents : List AllocEvent :=
  [.define 0 1 .U32, .consume 0, .define 2 1 .U32]

def demoState : AllocState := (runAlloc demoEvents).getD {}

/-- Witness for C1: the hypotheses of the main theorem hold on the concrete
three-event trace `demoEvents`. -/
theorem varAlloc_unique_ids_and_lowest_reuse_witness :
    (∀ i j infoi infoj, demoState.insts i = some infoi → demoState.insts j = some infoj →
       0 < infoi.uses → 0 < infoj.uses →
       infoi.defn.type = infoj.defn.type → infoi.defn.index = infoj.defn.index → i = j) ∧
    (∀ i info st', demoState.insts i = some info → info.uses = 1 →
       demoState.step (.consume i) = some st' →
       (∃ t', st'.va.tracker? info.defn.type = some t' ∧
          t'.var_use[info.defn.index]? = some false) ∧
       (∀ id2 va2, st'.va.alloc info.defn.type = some (id2, va2) →
          id2.index ≤ info.defn.index)) ∧
    (∀ ty id va', demoState.va.alloc ty = some (id, va') →
       ∃ t, demoState.va.tracker? ty = some t ∧
         (∀ j, j < id.index → t.var_use[j]? = some true) ∧
         (t.var_use[id.index]? = some false ∨ id.index = t.var_use.length)) :=
  varAlloc_unique_ids_and_lowest_reuse demoEvents demoState rfl

/-- **C5.**  Evaluation of `MakeImm`/`FormatFloat` at the divergence point:
an F64 NaN immediate (rendered "nan" by fmt) is formatted as "nan.lf", and
F64 infinities as "inf."/"-inf." — not the utof bit-pattern form the claim
requires for both F32 and F64 (only the F32 special cases produce it; the
F64 text falls through to dot/suffix normalization and does not parse back
to the original bit pattern).  Integer suffixes and the F32 special cases
behave as claimed. -/
theorem makeImm_f64_nan_divergence :
    makeImm (.f64 "nan") = "nan.lf" ∧
    makeImm (.f64 "inf") = "inf." ∧
    makeImm (.f64 "-inf") = "-inf." ∧
    makeImm (.f32 "nan") = "utof(0x7fc00000)" ∧
    makeImm (.f32 "inf") = "utof(0x7f800000)" ∧
    makeImm (.f32 "-inf") = "utof(0xff800000)" ∧
    makeImm (.u32 7) = "7u" ∧
    makeImm (.u64 7) = "7ul" := by
  decide

/-! ## Phi preprocessing (emit_msl.cpp, `PrecolorInst` / `Precolor`) -/

/-- The instruction forms relevant to phi preprocessing: a phi with its
(predecessor-block, source) argument list, the `Reference`
pseudo-instruction, the `PhiMove` assignment inserted by preprocessing, and
any other instruction.  Whether a phi argument is an immediate or an
instruction reference only changes the `PhiMove`'s operand, never its
placement, so sources are plain identifiers here. -/
inductive PInst : Type
  | phi (id : Nat) (args : List (Nat × Nat))
  | reference (src : Nat)
  | phiMove (dest : Nat) (src : Nat)
  | other (id : Nat)
deriving DecidableEq, Repr

/-- `IsReference` from emit_msl.cpp. -/
def isReference : PInst → Bool
  | .reference _ => true
  | _ => false

/-- `IR::IsPhi` (the loop in `Precolor` stops at the first non-phi). -/
def isPhi : PInst → Bool
  | .phi _ _ => true
  | _ => false

/-- A basic block is its instruction list. -/
abbrev PBlock := List PInst

/-- Length of the maximal suffix of `Reference` instructions; the C++
computes the insertion point `it` as
`std::find_if_not(phi_block.rbegin(), phi_block.rend(), IsReference).base()`,
scanning from the block's end past the trailing references. -/
def trailingRefs (b : PBlock) : Nat :=
  (b.reverse.takeWhile isReference).length

/-- Insertion of one instruction at that point: after everything else but
before the block's trailing references. -/
def insertBeforeTrailingRefs (b : PBlock) (x : PInst) : PBlock :=
  b.take (b.length - trailingRefs b) ++ [x] ++ b.drop (b.length - trailingRefs b)

/-- Rewrite block `bi` of the program with `f`. -/
def updateBlock : List PBlock → Nat → (PBlock → PBlock) → List PBlock
  | [], _, _ => []
  | b :: rest, 0, f => f b :: rest
  | b :: rest, n + 1, f => b :: updateBlock rest n f

/-- `PrecolorInst` from emit_msl.cpp: the first loop inserts one `PhiMove`
per phi argument into the argument's predecessor block at the
before-trailing-references point; the second loop appends a `Reference` to
the phi at the end of every predecessor block. -/
def precolorInst (blocks : List PBlock) (phiId : Nat) (args : List (Nat × Nat)) :
    List PBlock :=
  let afterMoves := args.foldl
    (fun bl (a : Nat × Nat) =>
      updateBlock bl a.1 (fun b => insertBeforeTrailingRefs b (.phiMove phiId a.2)))
    blocks
  args.foldl
    (fun bl (a : Nat × Nat) => updateBlock bl a.1 (fun b => b ++ [.reference phiId]))
    afterMoves

/-- The leading run of phi instructions of a block, with their payloads. -/
def leadingPhis (b : PBlock) : List (Nat × List (Nat × Nat)) :=
  (b.takeWhile isPhi).filterMap fun inst =>
    match inst with
    | .phi i args => some (i, args)
    | _ => none

/-- `Precolor` from emit_msl.cpp: for every block of the program in order,
preprocess its leading phi instructions. -/
def precolor (blocks : List PBlock) : List PBlock :=
  (List.range blocks.length).foldl
    (fun bl bi =>
      (leadingPhis ((bl[bi]?).getD [])).foldl
        (fun bl2 pa => precolorInst bl2 pa.1 pa.2) bl)
    blocks

theorem takeWhile_append_of_all {α : Type} (q : α → Bool) (A B : List α)
    (h : ∀ a ∈ A, q a = true) : (A ++ B).takeWhile q = A ++ B.takeWhile q := by
  induction A with
  | nil => rfl
  | cons a rest ih =>
    have ha : q a = true := h a (by simp)
    have ih' := ih (fun x hx => h x (by simp [hx]))
    simp [List.takeWhile_cons, ha, ih']

theorem takeWhile_nil_of_head_false {α : Type} (q : α → Bool) (l : List α)
    (h : ∀ x, l.head? = some x → q x = false) : l.takeWhile q = [] := by
  cases l with
  | nil => rfl
  | cons a rest => simp [List.takeWhile_cons, h a rfl]

/-- With a trailing run `r` of references after a prefix `p` not ending in a
reference, the C++ reverse scan stops exactly at the run boundary. -/
theorem trailingRefs_eq (p r : PBlock) (hr : ∀ x ∈ r, isReference x = true)
    (hp : ∀ x, p.reverse.head? = some x → isReference x = false) :
    trailingRefs (p ++ r) = r.length := by
  unfold trailingRefs
  rw [List.reverse_append]
  rw [takeWhile_append_of_all _ _ _ (by intro a ha; exact hr a (by simpa using ha))]
  rw [takeWhile_nil_of_head_false _ _ hp]
  simp

/-- The insertion point lands between `p` and the trailing references. -/
theorem insertBeforeTrailingRefs_eq (p r : PBlock) (x : PInst)
    (hr : ∀ y ∈ r, isReference y = true)
    (hp : ∀ y, p.reverse.head? = some y → isReference y = false) :
    insertBeforeTrailingRefs (p ++ r) x = p ++ [x] ++ r := by
  unfold insertBeforeTrailingRefs
  rw [trailingRefs_eq p r hr hp]
  have hlen : (p ++ r).length - r.length = p.length := by simp
  rw [hlen, List.take_left, List.drop_left]

theorem updateBlock_get_self (bl : List PBlock) (bi : Nat) (f : PBlock → PBlock)
    (b : PBlock) (h : bl[bi]? = some b) : (updateBlock bl bi f)[bi]? = some (f b) := by
  induction bl generalizing bi with
  | nil => exact absurd h (by simp)
  | cons hd rest ih =>
    cases bi with
    | zero =>
      simp only [List.getElem?_cons_zero, Option.some.injEq] at h
      subst h
      show (f hd :: rest)[0]? = some (f hd)
      simp
    | succ n =>
      simp only [List.getElem?_cons_succ] at h
      simpa [updateBlock] using ih n h

theorem updateBlock_get_other (bl : List PBlock) (bi : Nat) (f : PBlock → PBlock)
    (j : Nat) (h : j ≠ bi) : (updateBlock bl bi f)[j]? = bl[j]? := by
  induction bl generalizing bi j with
  | nil => cases bi <;> rfl
  | cons hd rest ih =>
    cases bi with
    | zero =>
      cases j with
      | zero => exact absurd rfl h
      | succ m =>
        show (f hd :: rest)[m + 1]? = (hd :: rest)[m + 1]?
        simp
    | succ n =>
      cases j with
      | zero =>
        show (hd :: updateBlock rest n f)[0]? = (hd :: rest)[0]?
        simp
      | succ m => simpa [updateBlock] using ih n m (by omega)

/-- Counterexample to C6 as stated: with an existing `Reference` already at
the end of the predecessor block, `Precolor` inserts the `PhiMove` BEFORE
that reference (matching the source comment "Insert phi moves before
references to avoid overwriting other phis"), not after it as the claim
says; only the phi's own liveness `Reference` goes after. -/
theorem precolor_move_before_refs_counterexample :
    precolor [[.other 10, .reference 99], [.phi 1 [(0, 10)]]]
      = [[.other 10, .phiMove 1 10, .reference 99, .reference 1],
         [.phi 1 [(0, 10)]]] ∧
    (precolor [[.other 10, .reference 99], [.phi 1 [(0, 10)]]])[0]?
      ≠ some [.other 10, .reference 99, .phiMove 1 10, .reference 1] := by
  decide

/-- **C6 (amended).**  Phi preprocessing inserts, for every phi argument, a
move assignment to the phi's variable at the end of the corresponding
predecessor block BEFORE any existing trailing reference
pseudo-instructions there (so one phi's move cannot clobber a value another
phi still needs), and appends a reference pseudo-instruction for the phi at
the very end of the block to keep values alive across the block boundary.
Stated for one `PrecolorInst` call on a single-argument phi with the
predecessor block split as `p ++ r` (`r` the trailing reference run), and
for a whole `Precolor` pass over a two-block program whose second block
starts with the phi. -/
theorem precolor_inserts_moves_before_refs
    (blocks : List PBlock) (phiId pi src : Nat) (p r : PBlock)
    (hb : blocks[pi]? = some (p ++ r))
    (hr : ∀ x ∈ r, isReference x = true)
    (hp : ∀ x, p.reverse.head? = some x → isReference x = false)
    (rest : PBlock)
    (hpnophi : ∀ x, (p ++ r).head? = some x → isPhi x = false)
    (hrestnophi : ∀ x, rest.head? = some x → isPhi x = false) :
    ((precolorInst blocks phiId [(pi, src)])[pi]?
        = some (p ++ [.phiMove phiId src] ++ r ++ [.reference phiId]) ∧
      (∀ j, j ≠ pi → (precolorInst blocks phiId [(pi, src)])[j]? = blocks[j]?)) ∧
    precolor [p ++ r, .phi phiId [(0, src)] :: rest]
      = [p ++ [.phiMove phiId src] ++ r ++ [.reference phiId],
         .phi phiId [(0, src)] :: rest] := by
  have hmain : ∀ (bl : List PBlock) (pi' : Nat), bl[pi']? = some (p ++ r) →
      (precolorInst bl phiId [(pi', src)])[pi']?
          = some (p ++ [.phiMove phiId src] ++ r ++ [.reference phiId]) ∧
        (∀ j, j ≠ pi' → (precolorInst bl phiId [(pi', src)])[j]? = bl[j]?) := by
    intro bl pi' hbl
    unfold precolorInst
    simp only [List.foldl_cons, List.foldl_nil]
    constructor
    · have hin1 : (updateBlock bl pi'
            (fun b => insertBeforeTrailingRefs b (.phiMove phiId src)))[pi']?
          = some (insertBeforeTrailingRefs (p ++ r) (.phiMove phiId src)) :=
        updateBlock_get_self bl pi' _ _ hbl
      have hin2 : (updateBlock (updateBlock bl pi'
            (fun b => insertBeforeTrailingRefs b (.phiMove phiId src))) pi'
            (fun b => b ++ [.reference phiId]))[pi']?
          = some (insertBeforeTrailingRefs (p ++ r) (.phiMove phiId src)
              ++ [.reference phiId]) :=
        updateBlock_get_self _ pi' _ _ hin1
      rw [hin2, insertBeforeTrailingRefs_eq p r (.phiMove phiId src) hr hp]
    · intro j hj
      rw [updateBlock_get_other _ _ _ _ hj, updateBlock_get_other _ _ _ _ hj]
  refine ⟨hmain blocks pi hb, ?_⟩
  have h0 : leadingPhis (p ++ r) = [] := by
    unfold leadingPhis
    rw [takeWhile_nil_of_head_false _ _ hpnophi]
    rfl
  have htw : (PInst.phi phiId [(0, src)] :: rest).takeWhile isPhi
      = PInst.phi phiId [(0, src)] :: rest.takeWhile isPhi := by
    simp [List.takeWhile_cons, isPhi]
  have h1 : leadingPhis (PInst.phi phiId [(0, src)] :: rest) = [(phiId, [(0, src)])] := by
    unfold leadingPhis
    rw [htw, takeWhile_nil_of_head_false _ _ hrestnophi]
    rfl
  have hb0 : ([p ++ r, PInst.phi phiId [(0, src)] :: rest] : List PBlock)[0]?
      = some (p ++ r) := rfl
  have hres := hmain [p ++ r, PInst.phi phiId [(0, src)] :: rest] 0 hb0
  unfold precolor
  rw [show List.range ([p ++ r, PInst.phi phiId [(0, src)] :: rest] : List PBlock).length
      = [0, 1] from rfl]
  simp only [List.foldl_cons, List.foldl_nil]
  rw [show (([p ++ r, PInst.phi phiId [(0, src)] :: rest] : List PBlock)[0]?).getD []
      = p ++ r from rfl]
  rw [h0]
  simp only [List.foldl_nil]
  rw [show (([p ++ r, PInst.phi phiId [(0, src)] :: rest] : List PBlock)[1]?).getD []
      = PInst.phi phiId [(0, src)] :: rest from rfl]
  rw [h1]
  simp only [List.foldl_cons, List.foldl_nil]
  apply List.ext_getElem?
  intro n
  match n with
  | 0 => rw [hres.1]; rfl
  | 1 => rw [hres.2 1 (by omega)]; rfl
  | (n + 2) => rw [hres.2 (n + 2) (by omega)]; rfl


/-- Witness for C6 (amended) on a concrete program: predecessor block
`[other 10, reference 99]`, one phi in the next block. -/
theorem precolor_inserts_moves_before_refs_witness :
    ((precolorInst [[.other 10, .reference 99], [.phi 1 [(0, 10)]]] 1 [(0, 10)])[0]?
        = some ([.other 10] ++ [.phiMove 1 10] ++ [.reference 99] ++ [.reference 1]) ∧
      (∀ j, j ≠ 0 →
        (precolorInst [[.other 10, .reference 99], [.phi 1 [(0, 10)]]] 1 [(0, 10)])[j]?
          = [[.other 10, .reference 99], [.phi 1 [(0, 10)]]][j]?)) ∧
    precolor [[.other 10] ++ [.reference 99], .phi 1 [(0, 10)] :: [.other 20]]
      = [[.other 10] ++ [.phiMove 1 10] ++ [.reference 99] ++ [.reference 1],
         .phi 1 [(0, 10)] :: [.other 20]] :=
  precolor_inserts_moves_before_refs
    [[.other 10, .reference 99], [.phi 1 [(0, 10)]]] 1 0 10
    [.other 10] [.reference 99] rfl
    (by intro x hx; simp at hx; subst hx; decide)
    (by intro x hx; have h2 := Option.some.inj hx; subst h2; decide)
    [.other 20]
    (by intro x hx; have h2 := Option.some.inj hx; subst h2; decide)
    (by intro x hx; have h2 := Option.some.inj hx; subst h2; decide)


/-! ## Stage input declarations (emit_msl.cpp `DefineInputs`) and emission -/

/-- `Common::DivCeil`. -/
def divCeil (a b : Nat) : Nat := (a + b - 1) / b

/-- `Shader::Backend::Bindings` (bindings.h): running binding counters
shared across the stages of one pipeline. -/
structure Bindings where
  uniform_buffer : Nat := 0
  storage_buffer : Nat := 0
  texture : Nat := 0
  image : Nat := 0
deriving DecidableEq, Repr

/-- `TextureImageDefinition` from msl_emit_context.h. -/
structure TextureImageDefinition where
  binding : Nat
  count : Nat
deriving DecidableEq, Repr

/-- A constant-buffer descriptor (`Shader::ConstantBufferDescriptor`). -/
structure ConstantBufferDescriptor where
  index : Nat
  count : Nat
deriving DecidableEq, Repr

/-- A storage-buffer descriptor (only `count` is read by `DefineInputs`). -/
structure StorageBufferDescriptor where
  count : Nat
deriving DecidableEq, Repr

/-- The texture dimensionality tags dispatched by `DefineInputs`. -/
inductive TextureType : Type
  | Color1D | ColorArray1D | Color2D | Color2DRect | ColorArray2D
  | Color3D | ColorCube | ColorArrayCube
deriving DecidableEq, Repr

structure ImageDescriptor where
  count : Nat
  is_written : Bool
  is_read : Bool
  ttype : TextureType
deriving DecidableEq, Repr

structure TextureDescriptor where
  count : Nat
  is_depth : Bool
  is_multisample : Bool
  ttype : TextureType
deriving DecidableEq, Repr

/-- The slice of `Shader::Info` read by `DefineInputs`. -/
structure Info where
  constant_buffer_descriptors : List ConstantBufferDescriptor
  constant_buffer_used_sizes : Nat → Nat
  uses_global_memory : Bool
  storage_buffers_descriptors : List StorageBufferDescriptor
  image_descriptors : List ImageDescriptor
  texture_descriptors : List TextureDescriptor

/-- `DepthSamplerType` from emit_msl.cpp (unlisted types throw). -/
def depthSamplerType : TextureType → Option String
  | .Color1D => some "sampler1DShadow"
  | .ColorArray1D => some "sampler1DArrayShadow"
  | .Color2D => some "sampler2DShadow"
  | .ColorArray2D => some "sampler2DArrayShadow"
  | .ColorCube => some "samplerCubeShadow"
  | .ColorArrayCube => some "samplerCubeArrayShadow"
  | _ => none

/-- `ColorSamplerType` from emit_msl.cpp (total on these tags; the
multisample flag only carries an assertion). -/
def colorSamplerType (ty : TextureType) (_is_multisample : Bool) : Option String :=
  match ty with
  | .Color1D => some "texture1d"
  | .ColorArray1D => some "texture1d_array"
  | .Color2D => some "texture2d"
  | .Color2DRect => some "texture2d"
  | .ColorArray2D => some "texture2d_array"
  | .Color3D => some "texture3d"
  | .ColorCube => some "texturecube"
  | .ColorArrayCube => some "texturecube_array"

/-- `ImageType` from emit_msl.cpp (`Color2DRect` is unlisted and throws). -/
def imageType : TextureType → Option String
  | .Color1D => some "texture1d"
  | .ColorArray1D => some "texture1d_array"
  | .Color2D => some "texture2d"
  | .ColorArray2D => some "texture2d_array"
  | .Color3D => some "texture3d"
  | .ColorCube => some "texturecube"
  | .ColorArrayCube => some "texturecube_array"
  | _ => none

/-- `ImageAccessQualifier` from emit_msl.cpp. -/
def imageAccessQualifier (is_written is_read : Bool) : String :=
  if is_written && is_read then "access::read, access::write"
  else if is_written then "access::write"
  else if is_read then "access::read"
  else ""

/-- One emitted constant-buffer declaration: the `cbuf` index, the declared
array length, and the binding slot passed to `[[buffer(...)]]` (the
arguments of the `fmt::format` call). -/
structure CbufDecl where
  index : Nat
  binding_size : Nat
  binding : Nat
deriving DecidableEq, Repr

/-- The constant-buffer loop of `DefineInputs`: for each descriptor, declare
`constant float4& cbuf<i>[<size>] [[buffer(<slot>)]]` where `<size>` is
`DivCeil(used_size, 16)` unless the stage uses global memory, in which case
the fixed bound 0x1000; advance the shared uniform-buffer binding counter
by the descriptor count. -/
def cbufLoop (info : Info) : List ConstantBufferDescriptor → String → Bindings → Bool →
    List CbufDecl → String × Bindings × Bool × List CbufDecl
  | [], header, b, added, decls => (header, b, added, decls)
  | desc :: rest, header, b, added, decls =>
    let cbuf_used_size := divCeil (info.constant_buffer_used_sizes desc.index) 16
    let cbuf_binding_size := if info.uses_global_memory then 0x1000 else cbuf_used_size
    let header' := header ++ (if added then "," else "") ++ "constant float4& cbuf"
      ++ toString desc.index ++ "[" ++ toString cbuf_binding_size ++ "] [[buffer("
      ++ toString b.uniform_buffer ++ ")]]"
    cbufLoop info rest header'
      { b with uniform_buffer := b.uniform_buffer + desc.count } true
      (decls ++ [⟨desc.index, cbuf_binding_size, b.uniform_buffer⟩])

/-- The storage-buffer loop of `DefineInputs` (also threads the running
`index` counter used in the variable name). -/
def ssboLoop : List StorageBufferDescriptor → String → Bindings → Bool → Nat →
    String × Bindings × Bool
  | [], header, b, added, _ => (header, b, added)
  | desc :: rest, header, b, added, index =>
    let header' := header ++ (if added then "," else "") ++ "device uint& ssbo"
      ++ toString index ++ "[] [[buffer(" ++ toString b.storage_buffer ++ ")]]"
    ssboLoop rest header'
      { b with storage_buffer := b.storage_buffer + desc.count } true (index + desc.count)

/-- The image loop of `DefineInputs`. -/
def imageLoop : List ImageDescriptor → String → Bindings → Bool →
    List TextureImageDefinition →
    Option (String × Bindings × Bool × List TextureImageDefinition)
  | [], header, b, added, imgs => some (header, b, added, imgs)
  | desc :: rest, header, b, added, imgs =>
    match imageType desc.ttype with
    | none => none
    | some image_type =>
      let qualifier := imageAccessQualifier desc.is_written desc.is_read
      let array_decorator := if desc.count > 1 then "[" ++ toString desc.count ++ "]" else ""
      let header' := header ++ (if added then "," else "") ++ qualifier ++ "<" ++ image_type
        ++ "> img" ++ toString b.image ++ array_decorator ++ " [[texture("
        ++ toString b.image ++ ")]]"
      imageLoop rest header' { b with image := b.image + desc.count } true
        (imgs ++ [⟨b.image, desc.count⟩])

/-- The texture loop of `DefineInputs` (each texture is paired with a
sampler at the same binding slot; depth textures get the shadow-sampler
type). -/
def textureLoop : List TextureDescriptor → String → Bindings → Bool →
    List TextureImageDefinition →
    Option (String × Bindings × Bool × List TextureImageDefinition)
  | [], header, b, added, texs => some (header, b, added, texs)
  | desc :: rest, header, b, added, texs =>
    match (if desc.is_depth then depthSamplerType desc.ttype
           else colorSamplerType desc.ttype desc.is_multisample) with
    | none => none
    | some texture_type =>
      let array_decorator := if desc.count > 1 then "[" ++ toString desc.count ++ "]" else ""
      let header' := header ++ (if added then "," else "") ++ texture_type ++ " tex"
        ++ toString b.texture ++ array_decorator ++ " [[texture("
        ++ toString b.texture ++ ")]]"
        ++ ",sampler samp" ++ toString b.texture ++ array_decorator ++ " [[sampler("
        ++ toString b.texture ++ ")]]"
      textureLoop rest header' { b with texture := b.texture + desc.count } true
        (texs ++ [⟨b.texture, desc.count⟩])

/-- The deliverables of `DefineInputs`: the input declaration text, the
advanced binding counters, and the recorded declarations. -/
structure StageInputs where
  text : String
  bindings : Bindings
  cbufs : List CbufDecl
  images : List TextureImageDefinition
  textures : List TextureImageDefinition

/-- `DefineInputs` from emit_msl.cpp: constant buffers, then storage
buffers, then images, then textures, in that fixed order, each advancing
the shared `Bindings` counters.  `none` models the `throw` on an
unsupported texture/image type. -/
def defineInputs (info : Info) (b : Bindings) : Option StageInputs :=
  match cbufLoop info info.constant_buffer_descriptors "" b false [] with
  | (h1, b1, added1, cdecls) =>
    match ssboLoop info.storage_buffers_descriptors h1 b1 added1 0 with
    | (h2, b2, added2) =>
      match imageLoop info.image_descriptors h2 b2 added2 [] with
      | none => none
      | some (h3, b3, added3, imgs) =>
        match textureLoop info.texture_descriptors h3 b3 added3 [] with
        | none => none
        | some (h4, b4, _, texs) => some ⟨h4, b4, cdecls, imgs, texs⟩


theorem cbufLoop_cons (info : Info) (d : ConstantBufferDescriptor)
    (rest : List ConstantBufferDescriptor) (header : String) (b : Bindings)
    (added : Bool) (decls : List CbufDecl) :
    cbufLoop info (d :: rest) header b added decls
      = cbufLoop info rest
          (header ++ (if added then "," else "") ++ "constant float4& cbuf"
            ++ toString d.index
            ++ "[" ++ toString (if info.uses_global_memory then 0x1000
                else divCeil (info.constant_buffer_used_sizes d.index) 16)
            ++ "] [[buffer(" ++ toString b.uniform_buffer ++ ")]]")
          { b with uniform_buffer := b.uniform_buffer + d.count } true
          (decls ++ [⟨d.index,
            if info.uses_global_memory then 0x1000
              else divCeil (info.constant_buffer_used_sizes d.index) 16,
            b.uniform_buffer⟩]) := rfl

/-- Positions already in the accumulator are stable under the loop. -/
theorem cbufLoop_stable (info : Info) (descs : List ConstantBufferDescriptor) :
    ∀ (header : String) (b : Bindings) (added : Bool) (decls : List CbufDecl)
      (j : Nat), j < decls.length →
      (cbufLoop info descs header b added decls).2.2.2[j]? = decls[j]? := by
  induction descs with
  | nil => intro header b added decls j hj; rfl
  | cons d rest ih =>
    intro header b added decls j hj
    rw [cbufLoop_cons]
    rw [ih _ _ _ _ j (by simp; omega)]
    exact List.getElem?_append_left hj

/-- The i-th emitted constant-buffer declaration corresponds to the i-th
descriptor, with the declared array length of the claim. -/
theorem cbufLoop_decl (info : Info) (descs : List ConstantBufferDescriptor) :
    ∀ (i : Nat) (desc : ConstantBufferDescriptor), descs[i]? = some desc →
      ∀ (header : String) (b : Bindings) (added : Bool) (decls : List CbufDecl),
      ∃ bind, (cbufLoop info descs header b added decls).2.2.2[decls.length + i]?
        = some ⟨desc.index,
            if info.uses_global_memory then 0x1000
              else divCeil (info.constant_buffer_used_sizes desc.index) 16,
            bind⟩ := by
  induction descs with
  | nil => intro i desc hdesc; exact absurd hdesc (by simp)
  | cons d rest ih =>
    intro i desc hdesc header b added decls
    cases i with
    | zero =>
      simp only [List.getElem?_cons_zero, Option.some.injEq] at hdesc
      subst hdesc
      refine ⟨b.uniform_buffer, ?_⟩
      rw [cbufLoop_cons]
      rw [Nat.add_zero]
      rw [cbufLoop_stable info rest _ _ _ _ decls.length (by simp)]
      rw [List.getElem?_concat_length]
    | succ n =>
      simp only [List.getElem?_cons_succ] at hdesc
      obtain ⟨bind, hres⟩ := ih n desc hdesc
        (header ++ (if added then "," else "") ++ "constant float4& cbuf"
          ++ toString d.index
          ++ "[" ++ toString (if info.uses_global_memory then 0x1000
              else divCeil (info.constant_buffer_used_sizes d.index) 16)
          ++ "] [[buffer(" ++ toString b.uniform_buffer ++ ")]]")
        { b with uniform_buffer := b.uniform_buffer + d.count } true
        (decls ++ [⟨d.index,
          if info.uses_global_memory then 0x1000
            else divCeil (info.constant_buffer_used_sizes d.index) 16,
          b.uniform_buffer⟩])
      refine ⟨bind, ?_⟩
      rw [cbufLoop_cons]
      rw [show decls.length + (n + 1)
          = (decls ++ [(⟨d.index,
              if info.uses_global_memory then 0x1000
                else divCeil (info.constant_buffer_used_sizes d.index) 16,
              b.uniform_buffer⟩ : CbufDecl)]).length + n from by simp; omega]
      exact hres

/-- **C7.**  For every constant-buffer descriptor, the declared buffer array
length in the generated stage inputs equals
`DivCeil(declared_used_size, 16)` (16-byte/float4 granularity), unless the
stage uses unbounded/indirect global-memory addressing, in which case the
fixed large bound 0x1000 elements is declared instead. -/
theorem cbuf_declared_length (info : Info) (b : Bindings) (i : Nat)
    (desc : ConstantBufferDescriptor) (si : StageInputs)
    (hdesc : info.constant_buffer_descriptors[i]? = some desc)
    (hsi : defineInputs info b = some si) :
    ∃ bind, si.cbufs[i]? = some ⟨desc.index,
      (if info.uses_global_memory then 0x1000
        else divCeil (info.constant_buffer_used_sizes desc.index) 16), bind⟩ := by
  obtain ⟨bind, hres⟩ := cbufLoop_decl info info.constant_buffer_descriptors i desc hdesc
    "" b false []
  refine ⟨bind, ?_⟩
  unfold defineInputs at hsi
  rcases hcb : cbufLoop info info.constant_buffer_descriptors "" b false [] with
    ⟨h1, b1, added1, cdecls⟩
  rw [hcb] at hres
  simp only [hcb] at hsi
  rcases hss : ssboLoop info.storage_buffers_descriptors h1 b1 added1 0 with ⟨h2, b2, added2⟩
  simp only [hss] at hsi
  cases himg : imageLoop info.image_descriptors h2 b2 added2 [] with
  | none => rw [himg] at hsi; exact Option.noConfusion hsi
  | some r3 =>
    obtain ⟨h3, b3, added3, imgs⟩ := r3
    simp only [himg] at hsi
    cases htex : textureLoop info.texture_descriptors h3 b3 added3 [] with
    | none => rw [htex] at hsi; exact Option.noConfusion hsi
    | some r4 =>
      obtain ⟨h4, b4, added4, texs⟩ := r4
      simp only [htex, Option.some.injEq] at hsi
      rw [← hsi]
      simpa using hres

/-- A one-constant-buffer stage: descriptor index 3, used size 0x500 bytes,
no global-memory access. -/
def demoInfo : Info where
  constant_buffer_descriptors := [⟨3, 1⟩]
  constant_buffer_used_sizes := fun _ => 0x500
  uses_global_memory := false
  storage_buffers_descriptors := []
  image_descriptors := []
  texture_descriptors := []

def demoInputs : StageInputs :=
  (defineInputs demoInfo {}).getD ⟨"", {}, [], [], []⟩

/-- Witness for C7: the single constant buffer of `demoInfo` declares
ceil(0x500/16) = 0x50 float4 elements. -/
theorem cbuf_declared_length_witness :
    ∃ bind, demoInputs.cbufs[0]? = some ⟨3,
      (if demoInfo.uses_global_memory then 0x1000
        else divCeil (demoInfo.constant_buffer_used_sizes 3) 16), bind⟩ :=
  cbuf_declared_length demoInfo {} 0 ⟨3, 1⟩ demoInputs rfl rfl


/-! ## `EmitCode` / `DefineVariables` / `EmitMSL` (emit_msl.cpp) -/

/-- The emission context state threaded through `EmitCode`: accumulated
statement text, the variable allocator and instruction store, the
safety-loop counter, and the carry flag set by some instruction rules. -/
structure EmitCtx where
  code : String
  alloc : AllocState
  num_safety_loop_vars : Nat
  uses_cc_carry : Bool

/-- `Settings::values.disable_shader_loop_safety_checks`. -/
structure SettingsModel where
  disable_shader_loop_safety_checks : Bool
deriving DecidableEq, Repr

/-- The profile fields read by `EmitMSL`/`DefineVariables`. -/
structure ProfileModel where
  gl_max_compute_smem_size : Nat
  has_gl_precise_bug : Bool
deriving DecidableEq, Repr

/-- The `IR::AbstractSyntaxNode` kinds handled by `EmitCode`'s switch. -/
inductive ASNode : Type
  | block (bi : Nat)
  | ifNode (cond : EValue)
  | endIf
  | breakNode (cond : EValue)
  | returnNode
  | unreachable
  | loopNode
  | repeatNode (cond : EValue)
deriving DecidableEq, Repr

/-- `EmitContext::Add` (no definition): append the statement and the
newline the context always adds. -/
def ctxAdd (ctx : EmitCtx) (line : String) : EmitCtx :=
  { ctx with code := ctx.code ++ line ++ "\n" }

/-- Consume a value and emit `pre ++ <consumed> ++ post`. -/
def consumeAdd (ctx : EmitCtx) (pre post : String) (v : EValue) : Option EmitCtx :=
  match ctx.alloc.consume v with
  | none => none
  | some (s, a') =>
    some { ctx with code := ctx.code ++ pre ++ s ++ post ++ "\n", alloc := a' }

/-- One case of `EmitCode`'s switch.  `emitInst` stands for the per-opcode
`EmitInst` dispatch, whose several hundred rules
(emit_msl_instructions.h's implementations) are outside src/. -/
def emitNode (emitInst : EmitCtx → PInst → Option EmitCtx) (settings : SettingsModel)
    (blocks : List PBlock) (ctx : EmitCtx) : ASNode → Option EmitCtx
  | .block bi => ((blocks[bi]?).getD []).foldlM emitInst ctx
  | .ifNode cond => consumeAdd ctx "if(" ")\x7b" cond
  | .endIf => some (ctxAdd ctx "\x7d")
  | .breakNode cond =>
    match cond with
    | .imm (.u1 b) => if b then some (ctxAdd ctx "break;") else some ctx
    | .imm _ => none
    | .ref i => consumeAdd ctx "if(" ")\x7bbreak;\x7d" (.ref i)
  | .returnNode => some (ctxAdd ctx "return;")
  | .unreachable => some (ctxAdd ctx "return;")
  | .loopNode => some (ctxAdd ctx "for(;;)\x7b")
  | .repeatNode cond =>
    if settings.disable_shader_loop_safety_checks then
      consumeAdd ctx "if(!" ")\x7bbreak;\x7d\x7d" cond
    else
      consumeAdd { ctx with num_safety_loop_vars := ctx.num_safety_loop_vars + 1 }
        ("if(--loop" ++ toString ctx.num_safety_loop_vars ++ "<0 || !")
        ")\x7bbreak;\x7d\x7d" cond

/-- `EmitCode`: fold the abstract syntax list. -/
def emitCode (emitInst : EmitCtx → PInst → Option EmitCtx) (settings : SettingsModel)
    (blocks : List PBlock) (ast : List ASNode) (ctx : EmitCtx) : Option EmitCtx :=
  ast.foldlM (emitNode emitInst settings blocks) ctx

/-- `GetMslType` from var_alloc.cpp. -/
def getMslType : MslVarType → String
  | .U1 => "bool"
  | .F16x2 => "f16vec2"
  | .U32 => "uint"
  | .F32 => "float"
  | .PrecF32 => "float"
  | .U64 => "uint64_t"
  | .F64 => "double"
  | .PrecF64 => "double"
  | .U32x2 => "uvec2"
  | .F32x2 => "vec2"
  | .U32x3 => "uvec3"
  | .F32x3 => "vec3"
  | .U32x4 => "uvec4"
  | .F32x4 => "vec4"
  | .Void => ""

/-- `IsPreciseType` from emit_msl.cpp. -/
def isPreciseType : MslVarType → Bool
  | .PrecF32 => true
  | .PrecF64 => true
  | _ => false

/-- The enumeration order `0 ≤ i < MslVarType::Void` of the
`DefineVariables` loop. -/
def mslTypeList : List MslVarType :=
  [.U1, .F16x2, .U32, .F32, .U64, .F64, .U32x2, .F32x2, .U32x3, .F32x3,
   .U32x4, .F32x4, .PrecF32, .PrecF64]

/-- `DefineVariables` from emit_msl.cpp: declare the anonymous temporary
(index 0) when used, every slot up to the high-water mark, and the
safety-loop counters. -/
def defineVariables (va : VarAlloc) (num_safety_loop_vars : Nat)
    (has_precise_bug : Bool) : String :=
  (mslTypeList.foldl (fun header ty =>
    let tracker := (va.tracker? ty).getD {}
    let type_name := getMslType ty
    let precise := if !has_precise_bug && isPreciseType ty then "precise " else ""
    let header :=
      if tracker.uses_temp then
        header ++ precise ++ type_name ++ " t" ++ VarAlloc.representation 0 ty ++ "="
          ++ type_name ++ "(0);"
      else header
    (List.range tracker.num_used).foldl (fun h index =>
      h ++ precise ++ type_name ++ " " ++ VarAlloc.representation index ty ++ "="
        ++ type_name ++ "(0);") header) "")
  ++ (List.range num_safety_loop_vars).foldl
      (fun h i => h ++ "int loop" ++ toString i ++ "=0x2000;") ""

/-- The `IR::Program` fields `EmitMSL` reads. -/
structure EProgram where
  blocks : List PBlock
  ast_nodes : List ASNode
  local_memory_size : Nat
  shared_memory_size : Nat
  uses_subgroup_shuffles : Bool

/-- `EmitMSL` from emit_msl.cpp: declare the stage inputs (advancing the
shared `Bindings`), run `Precolor` over the program's blocks, emit the code
via `EmitCode`, then assemble the header — include prelude, clamped shared
memory, `void main_(<inputs>){`, local memory, `DefineVariables`, the carry
and shuffle scratch variables — and return header ++ code ++ `}` together
with the advanced bindings.  The `EmitContext` constructor's own
stage-specific setup is deterministic in the same way and is not needed by
the claims; `emitInst` stands for the per-opcode rules, which are outside
src/. -/
def emitMSL (emitInst : EmitCtx → PInst → Option EmitCtx) (settings : SettingsModel)
    (profile : ProfileModel) (is_fragment : Bool) (info : Info) (p : EProgram)
    (bindings : Bindings) : Option (String × Bindings) :=
  match defineInputs info bindings with
  | none => none
  | some si =>
    let blocks := precolor p.blocks
    match emitCode emitInst settings blocks p.ast_nodes ⟨"", {}, 0, false⟩ with
    | none => none
    | some ctx =>
      let header0 := "#include <metal_stdlib>\nusing namespace metal;\n"
      let smem :=
        if p.shared_memory_size > 0 then
          let requested := p.shared_memory_size
          let maxs := profile.gl_max_compute_smem_size
          let size := if requested > maxs then maxs else requested
          "shared uint smem[" ++ toString (divCeil size 4) ++ "];"
        else ""
      let lmem :=
        if p.local_memory_size > 0 then
          "uint lmem[" ++ toString (divCeil p.local_memory_size 4) ++ "];"
        else ""
      let header := header0 ++ smem ++ "void main_(" ++ si.text ++ ")\x7b\n" ++ lmem
        ++ defineVariables ctx.alloc.va ctx.num_safety_loop_vars
            (is_fragment && profile.has_gl_precise_bug)
        ++ (if ctx.uses_cc_carry then "uint carry;" else "")
        ++ (if p.uses_subgroup_shuffles then "bool shfl_in_bounds;uint shfl_result;"
            else "")
      some (header ++ ctx.code ++ "\x7d", si.bindings)

/-- **C8.**  Emission is deterministic across runs: invoking `EmitMSL`
twice on the same IR program (same per-opcode rules, settings, profile,
stage, shader info and the same initial `Bindings` counters) produces
byte-identical source text and identical resource-binding assignments.  In
this embedding every phase — input declaration, phi precoloring, code
emission, variable declaration, header assembly — is a pure function of
these inputs, with no other state. -/
theorem emitMSL_deterministic (emitInst : EmitCtx → PInst → Option EmitCtx)
    (settings : SettingsModel) (profile : ProfileModel) (is_fragment : Bool)
    (info : Info) (p1 p2 : EProgram) (b1 b2 : Bindings)
    (hp : p1 = p2) (hb : b1 = b2) :
    emitMSL emitInst settings profile is_fragment info p1 b1
      = emitMSL emitInst settings profile is_fragment info p2 b2 := by
  rw [hp, hb]

/-- Witness for C8 on a concrete one-block program. -/
theorem emitMSL_deterministic_witness :
    emitMSL (fun ctx _ => some ctx) ⟨false⟩ ⟨0x10000, false⟩ false demoInfo
        ⟨[[.other 0]], [.block 0, .returnNode], 0, 0, false⟩ {}
      = emitMSL (fun ctx _ => some ctx) ⟨false⟩ ⟨0x10000, false⟩ false demoInfo
        ⟨[[.other 0]], [.block 0, .returnNode], 0, 0, false⟩ {} :=
  emitMSL_deterministic (fun ctx _ => some ctx) ⟨false⟩ ⟨0x10000, false⟩ false demoInfo
    ⟨[[.other 0]], [.block 0, .returnNode], 0, 0, false⟩
    ⟨[[.other 0]], [.block 0, .returnNode], 0, 0, false⟩ {} {} rfl rfl

end Shader.Backend.MSL

namespace Metal

/-! ## Pipeline cache keys (mtl_pipeline_cache.cpp, `Hash` / `operator==`) -/

/-- Modelled from the spec: `Common::CityHash64` (common/cityhash.cpp) is not
under src/; the spec describes it as "a fast non-cryptographic 64-bit hash
(content-based) over the key's exact byte span".  Modelled as a 64-bit
content-based fold of the byte span; every property proved below uses only
that it is a function of the hashed bytes. -/
def cityHash64 (bytes : List Nat) : Nat :=
  bytes.foldl (fun h b => (h * 1099511628211 + b) % 2 ^ 64) 14695981039346656037

/-- Little-endian byte image of a 64-bit field. -/
def le64 (v : Nat) : List Nat :=
  (List.range 8).map fun k => v / 256 ^ k % 256

/-- Little-endian byte image of a 32-bit field. -/
def le32 (v : Nat) : List Nat :=
  (List.range 4).map fun k => v / 256 ^ k % 256

/-- `ComputePipelineCacheKey` as constructed in
`PipelineCache::CurrentComputePipeline`: a per-shader content hash, the
dispatch's shared-memory size and its thread-group dimensions. -/
structure ComputePipelineCacheKey where
  unique_hash : Nat
  shared_memory_size : Nat
  threadgroup_size : Nat × Nat × Nat
deriving DecidableEq, Repr

/-- The raw byte image of the whole structure
(`reinterpret_cast<const char*>(this)`, `sizeof *this`): u64 hash, u32
shared-memory size, three u32 dimensions — 24 bytes, no padding. -/
def ComputePipelineCacheKey.bytes (k : ComputePipelineCacheKey) : List Nat :=
  le64 k.unique_hash ++ le32 k.shared_memory_size ++
    le32 k.threadgroup_size.1 ++ le32 k.threadgroup_size.2.1 ++ le32 k.threadgroup_size.2.2

/-- `ComputePipelineCacheKey::Hash`: CityHash64 over the whole structure. -/
def ComputePipelineCacheKey.hash (k : ComputePipelineCacheKey) : Nat :=
  cityHash64 k.bytes

/-- `ComputePipelineCacheKey::operator==`: `memcmp(&rhs, this, sizeof *this) == 0`. -/
def ComputePipelineCacheKey.memcmpEq (a b : ComputePipelineCacheKey) : Bool :=
  decide (a.bytes = b.bytes)

/-- Modelled from the spec: the `GraphicsPipelineCacheKey` struct is declared
in mtl_pipeline_cache.h, which is not under src/.  Per the spec it is a
fixed-layout, trivially-copyable value — "an array of per-stage content
hashes (one per shader stage slot; 0 = stage absent) plus the relevant
subset of fixed-function register state" — whose meaningful byte length
`Size()` is shorter than its storage size and is determined by
fixed-function flags stored in the always-meaningful leading state bytes.
Modelled: the stage-hash array, one leading state flag byte that determines
the meaningful length, an always-meaningful fixed-state block, and a
trailing block that is meaningful only when the flag is set. -/
structure GraphicsPipelineCacheKey where
  unique_hashes : List Nat
  extended_state : Bool
  fixed_state : List Nat
  extra_state : List Nat
deriving DecidableEq, Repr

/-- The raw byte storage of the key (fixed layout; callers zero-initialize
the storage before populating fields). -/
def GraphicsPipelineCacheKey.storage (k : GraphicsPipelineCacheKey) : List Nat :=
  (k.unique_hashes.map le64).flatten ++ [if k.extended_state then 1 else 0]
    ++ k.fixed_state ++ k.extra_state

/-- Modelled from the spec: `GraphicsPipelineCacheKey::Size()` — the
meaningful byte length, always covering the stage hashes, the flag byte and
the fixed state, and covering the trailing block only when the flag is
set. -/
def GraphicsPipelineCacheKey.size (k : GraphicsPipelineCacheKey) : Nat :=
  8 * k.unique_hashes.length + 1 + k.fixed_state.length +
    (if k.extended_state then k.extra_state.length else 0)

/-- `GraphicsPipelineCacheKey::Hash`: CityHash64 over the first `Size()`
bytes of the key. -/
def GraphicsPipelineCacheKey.hash (k : GraphicsPipelineCacheKey) : Nat :=
  cityHash64 (k.storage.take k.size)

/-- `GraphicsPipelineCacheKey::operator==`: `memcmp(&rhs, this, Size()) == 0`. -/
def GraphicsPipelineCacheKey.memcmpEq (a b : GraphicsPipelineCacheKey) : Bool :=
  decide (a.storage.take a.size = b.storage.take a.size)

/-- Both keys are values of the same C++ struct type: block lengths agree. -/
def SameLayout (a b : GraphicsPipelineCacheKey) : Prop :=
  a.unique_hashes.length = b.unique_hashes.length ∧
  a.fixed_state.length = b.fixed_state.length ∧
  a.extra_state.length = b.extra_state.length

theorem join_map_le64_length (l : List Nat) : ((l.map le64).flatten).length = 8 * l.length := by
  induction l with
  | nil => rfl
  | cons x xs ih =>
    have hx : (le64 x).length = 8 := by simp [le64]
    simp only [List.map_cons, List.flatten_cons, List.length_append, ih, List.length_cons, hx]
    omega

theorem storage_flag (k : GraphicsPipelineCacheKey) :
    k.storage[8 * k.unique_hashes.length]? = some (if k.extended_state then 1 else 0) := by
  have hJ : ((k.unique_hashes.map le64).flatten).length = 8 * k.unique_hashes.length :=
    join_map_le64_length k.unique_hashes
  unfold GraphicsPipelineCacheKey.storage
  rw [← hJ]
  have h1 : ((k.unique_hashes.map le64).flatten).length <
      (((k.unique_hashes.map le64).flatten ++ [if k.extended_state then 1 else 0])
        ++ k.fixed_state).length := by
    simp
  rw [List.getElem?_append_left h1]
  have h2 : ((k.unique_hashes.map le64).flatten).length <
      ((k.unique_hashes.map le64).flatten ++ [if k.extended_state then 1 else 0]).length := by
    simp
  rw [List.getElem?_append_left h2]
  rw [List.getElem?_concat_length]

theorem size_gt_flag (k : GraphicsPipelineCacheKey) :
    8 * k.unique_hashes.length < k.size := by
  unfold GraphicsPipelineCacheKey.size
  split <;> omega

/-- A successful `memcmp` over lhs's `Size()` pins down the flag byte, hence
both keys' meaningful sizes. -/
theorem memcmpEq_size_eq (a b : GraphicsPipelineCacheKey) (hl : SameLayout a b)
    (h : a.memcmpEq b = true) :
    a.extended_state = b.extended_state ∧ a.size = b.size := by
  obtain ⟨h1, h2, h3⟩ := hl
  have heq : a.storage.take a.size = b.storage.take a.size := of_decide_eq_true h
  have hn : 8 * a.unique_hashes.length < a.size := size_gt_flag a
  have hta : (a.storage.take a.size)[8 * a.unique_hashes.length]?
      = some (if a.extended_state then 1 else 0) := by
    rw [List.getElem?_take_of_lt hn]
    exact storage_flag a
  have htb : (b.storage.take a.size)[8 * a.unique_hashes.length]?
      = some (if b.extended_state then 1 else 0) := by
    rw [List.getElem?_take_of_lt hn, h1]
    exact storage_flag b
  rw [heq, htb] at hta
  have hflag : (if b.extended_state then (1 : Nat) else 0)
      = (if a.extended_state then 1 else 0) := Option.some.inj hta
  have hext : a.extended_state = b.extended_state := by
    cases ha' : a.extended_state <;> cases hb' : b.extended_state <;>
      simp [ha', hb'] at hflag ⊢
  refine ⟨hext, ?_⟩
  unfold GraphicsPipelineCacheKey.size
  rw [h1, h2, h3, hext]

/-- **C2.**  Pipeline cache key equality is reflexive and symmetric and is
consistent with the hash: `a == b` implies `Hash a = Hash b`.  Graphics keys
compare and hash over the meaningful byte prefix `Size()`; compute keys over
the whole structure; keys with identical byte content compare equal.
(Graphics parts assume both keys are values of the same struct layout.) -/
theorem pipeline_cache_key_equality_hash_consistent :
    (∀ a : GraphicsPipelineCacheKey, a.memcmpEq a = true) ∧
    (∀ a b : GraphicsPipelineCacheKey, SameLayout a b →
       a.memcmpEq b = true → b.memcmpEq a = true) ∧
    (∀ a b : GraphicsPipelineCacheKey, SameLayout a b →
       a.memcmpEq b = true → a.hash = b.hash) ∧
    (∀ a b : GraphicsPipelineCacheKey, a.storage = b.storage → a.memcmpEq b = true) ∧
    (∀ a : ComputePipelineCacheKey, a.memcmpEq a = true) ∧
    (∀ a b : ComputePipelineCacheKey, a.memcmpEq b = true → b.memcmpEq a = true) ∧
    (∀ a b : ComputePipelineCacheKey, a.memcmpEq b = true → a.hash = b.hash) ∧
    (∀ a b : ComputePipelineCacheKey, a.bytes = b.bytes → a.memcmpEq b = true) := by
  refine ⟨?_, ?_, ?_, ?_, ?_, ?_, ?_, ?_⟩
  · intro a
    simp [GraphicsPipelineCacheKey.memcmpEq]
  · intro a b hl h
    obtain ⟨hext, hsz⟩ := memcmpEq_size_eq a b hl h
    have heq : a.storage.take a.size = b.storage.take a.size := of_decide_eq_true h
    simp only [GraphicsPipelineCacheKey.memcmpEq, decide_eq_true_eq]
    rw [← hsz, heq]
  · intro a b hl h
    obtain ⟨hext, hsz⟩ := memcmpEq_size_eq a b hl h
    have heq : a.storage.take a.size = b.storage.take a.size := of_decide_eq_true h
    unfold GraphicsPipelineCacheKey.hash
    rw [heq, hsz]
  · intro a b hst
    simp only [GraphicsPipelineCacheKey.memcmpEq, decide_eq_true_eq]
    rw [hst]
  · intro a
    simp [ComputePipelineCacheKey.memcmpEq]
  · intro a b h
    have := of_decide_eq_true h
    simp only [ComputePipelineCacheKey.memcmpEq, decide_eq_true_eq]
    rw [this]
  · intro a b h
    have := of_decide_eq_true h
    unfold ComputePipelineCacheKey.hash
    rw [this]
  · intro a b h
    simp only [ComputePipelineCacheKey.memcmpEq, decide_eq_true_eq]
    rw [h]


/-- Witness for C2: two graphics keys that differ only in the
not-currently-meaningful trailing state block compare equal and hash
identically; a compute key hashes and compares over its full bytes. -/
theorem pipeline_cache_key_witness :
    SameLayout ⟨[5, 0, 0, 0, 7], false, [1, 2], [3]⟩ ⟨[5, 0, 0, 0, 7], false, [1, 2], [9]⟩ ∧
    GraphicsPipelineCacheKey.memcmpEq ⟨[5, 0, 0, 0, 7], false, [1, 2], [3]⟩
      ⟨[5, 0, 0, 0, 7], false, [1, 2], [9]⟩ = true ∧
    GraphicsPipelineCacheKey.hash ⟨[5, 0, 0, 0, 7], false, [1, 2], [3]⟩
      = GraphicsPipelineCacheKey.hash ⟨[5, 0, 0, 0, 7], false, [1, 2], [9]⟩ ∧
    ComputePipelineCacheKey.memcmpEq ⟨11, 0, (1, 1, 1)⟩ ⟨11, 0, (1, 1, 1)⟩ = true := by
  refine ⟨⟨rfl, rfl, rfl⟩, by decide, ?_, ?_⟩
  · exact pipeline_cache_key_equality_hash_consistent.2.2.1 _ _ ⟨rfl, rfl, rfl⟩ (by decide)
  · exact pipeline_cache_key_equality_hash_consistent.2.2.2.2.1 _

/-! ## Pipeline cache behaviour (mtl_pipeline_cache.cpp, mtl_rasterizer.cpp) -/

/-- A compiled graphics pipeline object: an identity plus the `IsBuilt()`
flag consulted by `PipelineCache::BuiltPipeline`. -/
structure GraphicsPipeline where
  pid : Nat
  is_built : Bool
deriving DecidableEq, Repr

/-- A compiled compute pipeline object. -/
structure ComputePipeline where
  pid : Nat
deriving DecidableEq, Repr

/-- Keys are compared through `operator==`/`Hash` (modelled above); for the
cache-behaviour claims a key is abstracted to its identity. -/
abbrev GKey := Nat

abbrev CKey := Nat

/-- The cache state: `graphics_cache`/`compute_cache` map keys to entries.
`try_emplace` default-constructs an entry holding a null `unique_ptr`, hence
the inner `Option`; the outer `Option` is entry presence.  `current_pipeline`
is the fast-path pointer. -/
structure PipelineCacheState where
  graphics_cache : GKey → Option (Option GraphicsPipeline) := fun _ => none
  compute_cache : CKey → Option (Option ComputePipeline) := fun _ => none
  current_pipeline : Option GraphicsPipeline := none

/-- The possible outcomes of `CreateGraphicsPipeline`'s body for one key
(translating every active stage and compiling the generated source),
distinguishing how the body exits:
* `ok` — every stage translated and compiled; a pipeline is constructed;
* `thrown` — an exception is genuinely thrown (e.g. a
  `NotImplementedException` during translation) and propagates to the
  function-try-block's `catch`;
* `compilerReject` — `newLibrary` reports a host-compiler error: the code
  logs it and then executes a bare `throw;` in normal control flow
  (mtl_pipeline_cache.cpp, the `if (error)` block), with no exception
  currently being handled. -/
inductive GraphicsBuildOutcome : Type
  | ok (p : GraphicsPipeline)
  | thrown (msg : String)
  | compilerReject (msg : String)
deriving DecidableEq, Repr

/-- External collaborators of one lookup: what `CreateGraphicsPipeline`'s
body would do for a key, the current dispatch shader (`ComputeShader()`),
the compute key built from the launch descriptor, and the draw state read
by `BuiltPipeline`. -/
structure BuildEnv where
  graphicsBuild : GKey → GraphicsBuildOutcome
  computeShader : Option Nat
  computeKey : CKey
  drawIndexCount : Nat
  drawVertexCount : Nat

/-- What `PipelineCache::CreateGraphicsPipeline` observably does, its
function-try-block included.  A rethrow (`throw;`) with no active exception
does not reach the `catch (const std::exception&)` handler: it calls
`std::terminate`, so the host-compiler-rejection path never returns. -/
inductive BuildResult : Type
  | ret (p : Option GraphicsPipeline)
  | terminated
deriving DecidableEq, Repr

/-- `CreateGraphicsPipeline` with its `catch`: a thrown exception is caught
at the build boundary and turned into a null pipeline (`return nullptr`);
the bare `throw;` on host-compiler rejection bypasses the `catch` and
terminates the process. -/
def createGraphicsPipelineCaught (env : BuildEnv) (key : GKey) : BuildResult :=
  match env.graphicsBuild key with
  | .ok p => .ret (some p)
  | .thrown _ => .ret none
  | .compilerReject _ => .terminated

/-- The body of `PipelineCache::CreateComputePipeline`: it unconditionally
throws "Compute shaders are not implemented" (a real `std::runtime_error`)
before any pipeline is constructed. -/
def createComputePipelineE : Except String ComputePipeline :=
  .error "Compute shaders are not implemented"

/-- Its `try`/`catch` wrapper: the exception is caught, null is returned. -/
def createComputePipelineCaught : Option ComputePipeline :=
  match createComputePipelineE with
  | .ok p => some p
  | .error _ => none

/-- `PipelineCache::BuiltPipeline`: return the pipeline if its host state
object is built, or while the draw is tiny (the "TODO: what" heuristic);
otherwise report no pipeline. -/
def builtPipeline (env : BuildEnv) (p : GraphicsPipeline) : Option GraphicsPipeline :=
  if p.is_built then some p
  else if env.drawIndexCount ≤ 6 ∨ env.drawVertexCount ≤ 6 then some p
  else none

/-- `PipelineCache::CurrentGraphicsPipelineSlowPath`:
`try_emplace` the key; on a fresh entry run creation and store the result
(null when the build's exception was caught); return null if the stored
pipeline is null, else set `current_pipeline` and return
`BuiltPipeline(pipeline)`.  The `Bool` records whether creation (and hence
the host compiler) ran.  The outer `Option` is `none` when creation
terminated the process (the bare `throw;` path): no value is returned and
no further state is observable. -/
def currentGraphicsPipelineSlowPath (env : BuildEnv) (st : PipelineCacheState) (key : GKey) :
    Option (Option GraphicsPipeline × PipelineCacheState × Bool) :=
  match st.graphics_cache key with
  | some pipeline =>
    match pipeline with
    | none => some (none, st, false)
    | some p => some (builtPipeline env p, { st with current_pipeline := some p }, false)
  | none =>
    match createGraphicsPipelineCaught env key with
    | .terminated => none
    | .ret pipeline =>
      let st' := { st with
        graphics_cache := fun k => if k = key then some pipeline else st.graphics_cache k }
      match pipeline with
      | none => some (none, st', true)
      | some p => some (builtPipeline env p, { st' with current_pipeline := some p }, true)

/-- `PipelineCache::CurrentComputePipeline`: null shader short-circuits;
otherwise `try_emplace` the dispatch key, create on a fresh entry, and
return the stored entry as-is. -/
def currentComputePipeline (env : BuildEnv) (st : PipelineCacheState) :
    Option ComputePipeline × PipelineCacheState × Bool :=
  match env.computeShader with
  | none => (none, st, false)
  | some _ =>
    match st.compute_cache env.computeKey with
    | some pipeline => (pipeline, st, false)
    | none =>
      let p := createComputePipelineCaught
      (p, { st with
        compute_cache := fun k => if k = env.computeKey then some p else st.compute_cache k },
        true)

inductive DrawOutcome : Type
  | skipped
  | drawn
deriving DecidableEq, Repr

/-- `RasterizerMetal::Draw` around the graphics lookup: if pipeline
creation terminated the process the draw never resumes (`none`); a null
pipeline returns early, skipping the draw; otherwise the draw proceeds. -/
def rasterizerDraw (res : Option (Option GraphicsPipeline × PipelineCacheState × Bool)) :
    Option DrawOutcome :=
  match res with
  | none => none
  | some (none, _, _) => some .skipped
  | some (some _, _, _) => some .drawn

/-- A lookup whose generated source the host compiler rejects
(`newLibrary` reports an error). -/
def rejectEnv : BuildEnv where
  graphicsBuild := fun _ => .compilerReject "failed to create library"
  computeShader := none
  computeKey := 0
  drawIndexCount := 10
  drawVertexCount := 10

/-- A lookup whose build throws a real exception (a not-implemented
feature hit during translation). -/
def thrownEnv : BuildEnv where
  graphicsBuild := fun _ => .thrown "Not implemented"
  computeShader := none
  computeKey := 0
  drawIndexCount := 10
  drawVertexCount := 10

/-- **C3.**  Evaluation at the failing input.  On host-compiler rejection
`CreateGraphicsPipeline` executes a bare `throw;` with no active exception,
which calls `std::terminate` instead of reaching the function-try-block's
`catch` — the lookup does not return null and the rasterizer never gets to
skip the draw, contradicting the claim (and the spec's stated handling of
host-compiler rejection) for that failure mode.  A genuinely thrown
not-implemented exception, by contrast, is caught, cached as null and the
draw is skipped, as the claim says. -/
theorem host_compiler_reject_bypasses_catch :
    createGraphicsPipelineCaught rejectEnv 5 = .terminated ∧
    currentGraphicsPipelineSlowPath rejectEnv {} 5 = none ∧
    rasterizerDraw (currentGraphicsPipelineSlowPath rejectEnv {} 5) = none ∧
    createGraphicsPipelineCaught thrownEnv 5 = .ret none ∧
    rasterizerDraw (currentGraphicsPipelineSlowPath thrownEnv {} 5) = some .skipped :=
  ⟨rfl, rfl, rfl, rfl, rfl⟩

/-- **C4.**  Requesting the same key twice with no intervening invalidation
is idempotent: the second call finds the entry the first call inserted,
returns the identical pipeline object, and does not invoke pipeline
creation (hence not the host shading compiler) a second time.  Graphics
slow path (with the created pipeline reporting built, so `BuiltPipeline`
passes it through) and compute path. -/
theorem cache_lookup_idempotent
    (env : BuildEnv) (st : PipelineCacheState) (key : GKey) (p : GraphicsPipeline)
    (hbuildok : env.graphicsBuild key = .ok p)
    (hnew : st.graphics_cache key = none)
    (hbuilt : p.is_built = true)
    (sh : Nat) (hsh : env.computeShader = some sh)
    (hcnew : st.compute_cache env.computeKey = none) :
    (∃ st1,
      currentGraphicsPipelineSlowPath env st key = some (some p, st1, true) ∧
      st1.graphics_cache key = some (some p) ∧
      ∃ st2,
        currentGraphicsPipelineSlowPath env st1 key = some (some p, st2, false) ∧
        st2.graphics_cache key = some (some p)) ∧
    (let c1 := currentComputePipeline env st
     let c2 := currentComputePipeline env c1.2.1
     c1.2.2 = true ∧
     c1.2.1.compute_cache env.computeKey = some c1.1 ∧
     c2.1 = c1.1 ∧ c2.2.2 = false ∧ c2.2.1 = c1.2.1) := by
  constructor
  · refine ⟨{ st with
        graphics_cache := fun k => if k = key then some (some p) else st.graphics_cache k,
        current_pipeline := some p }, ?_, ?_,
      { st with
        graphics_cache := fun k => if k = key then some (some p) else st.graphics_cache k,
        current_pipeline := some p }, ?_, ?_⟩ <;>
      simp [currentGraphicsPipelineSlowPath, createGraphicsPipelineCaught, builtPipeline,
        hbuildok, hnew, hbuilt]
  · refine ⟨?_, ?_, ?_, ?_, ?_⟩ <;>
      simp [currentComputePipeline, createComputePipelineCaught, createComputePipelineE,
        hsh, hcnew]

/-- Witness for C4 at a concrete environment and empty cache. -/
theorem cache_lookup_idempotent_witness :
    (∃ st1,
      currentGraphicsPipelineSlowPath
          { graphicsBuild := fun _ => .ok ⟨7, true⟩, computeShader := some 1,
            computeKey := 0, drawIndexCount := 10, drawVertexCount := 10 } {} 5
        = some (some ⟨7, true⟩, st1, true) ∧
      st1.graphics_cache 5 = some (some ⟨7, true⟩) ∧
      ∃ st2,
        currentGraphicsPipelineSlowPath
            { graphicsBuild := fun _ => .ok ⟨7, true⟩, computeShader := some 1,
              computeKey := 0, drawIndexCount := 10, drawVertexCount := 10 } st1 5
          = some (some ⟨7, true⟩, st2, false) ∧
        st2.graphics_cache 5 = some (some ⟨7, true⟩)) :=
  (cache_lookup_idempotent
    { graphicsBuild := fun _ => .ok ⟨7, true⟩, computeShader := some 1,
      computeKey := 0, drawIndexCount := 10, drawVertexCount := 10 }
    {} 5 ⟨7, true⟩ rfl rfl rfl 1 rfl rfl).1

/-- **C9.**  In the observed source `CurrentComputePipeline` never returns a
usable pipeline: `CreateComputePipeline` unconditionally throws
"Compute shaders are not implemented" before constructing a pipeline, so
the first call for a dispatch key returns null and stores a null entry,
and every subsequent call with the same key returns that stored null
without retrying creation. -/
theorem compute_pipeline_never_usable
    (env : BuildEnv) (st : PipelineCacheState)
    (sh : Nat) (hsh : env.computeShader = some sh)
    (hnew : st.compute_cache env.computeKey = none) :
    createComputePipelineE = .error "Compute shaders are not implemented" ∧
    (let c1 := currentComputePipeline env st
     let c2 := currentComputePipeline env c1.2.1
     c1.1 = none ∧ c1.2.2 = true ∧
     c1.2.1.compute_cache env.computeKey = some none ∧
     c2.1 = none ∧ c2.2.2 = false ∧ c2.2.1 = c1.2.1) := by
  refine ⟨rfl, ?_, ?_, ?_, ?_, ?_, ?_⟩ <;>
    simp [currentComputePipeline, createComputePipelineCaught, createComputePipelineE,
      hsh, hnew]

/-- Witness for C9 at a concrete environment and empty cache. -/
theorem compute_pipeline_never_usable_witness :
    createComputePipelineE = .error "Compute shaders are not implemented" ∧
    (let env : BuildEnv :=
      { graphicsBuild := fun _ => .thrown "x", computeShader := some 3,
        computeKey := 2, drawIndexCount := 0, drawVertexCount := 0 }
     let c1 := currentComputePipeline env {}
     let c2 := currentComputePipeline env c1.2.1
     c1.1 = none ∧ c1.2.2 = true ∧
     c1.2.1.compute_cache 2 = some none ∧
     c2.1 = none ∧ c2.2.2 = false ∧ c2.2.1 = c1.2.1) :=
  compute_pipeline_never_usable
    { graphicsBuild := fun _ => .thrown "x", computeShader := some 3,
      computeKey := 2, drawIndexCount := 0, drawVertexCount := 0 }
    {} 3 rfl rfl

/-- **C10.**  Failed graphics builds are negatively cached: when
`CreateGraphicsPipeline` returns null for a key (the caught-exception
case), the null entry inserted by `try_emplace` remains in the graphics
cache, and every subsequent slow-path lookup of the same key returns null
without invoking creation (hence the host compiler) again, as long as the
entry is not invalidated. -/
theorem failed_graphics_build_negative_cache
    (env : BuildEnv) (st : PipelineCacheState) (key : GKey) (msg : String)
    (hfail : env.graphicsBuild key = .thrown msg)
    (hnew : st.graphics_cache key = none) :
    ∃ st1,
      currentGraphicsPipelineSlowPath env st key = some (none, st1, true) ∧
      st1.graphics_cache key = some none ∧
      currentGraphicsPipelineSlowPath env st1 key = some (none, st1, false) := by
  refine ⟨{ st with
      graphics_cache := fun k => if k = key then some none else st.graphics_cache k },
    ?_, ?_, ?_⟩ <;>
    simp [currentGraphicsPipelineSlowPath, createGraphicsPipelineCaught, hfail, hnew]

/-- Witness for C10 at a concrete environment and empty cache. -/
theorem failed_graphics_build_negative_cache_witness :
    ∃ st1,
      currentGraphicsPipelineSlowPath
          { graphicsBuild := fun _ => .thrown "unimplemented feature", computeShader := none,
            computeKey := 0, drawIndexCount := 0, drawVertexCount := 0 } {} 9
        = some (none, st1, true) ∧
      st1.graphics_cache 9 = some none ∧
      currentGraphicsPipelineSlowPath
          { graphicsBuild := fun _ => .thrown "unimplemented feature", computeShader := none,
            computeKey := 0, drawIndexCount := 0, drawVertexCount := 0 } st1 9
        = some (none, st1, false) :=
  failed_graphics_build_negative_cache
    { graphicsBuild := fun _ => .thrown "unimplemented feature", computeShader := none,
      computeKey := 0, drawIndexCount := 0, drawVertexCount := 0 }
    {} 9 "unimplemented feature" rfl rfl

end Metal
